import Mathlib

/-!
Verification of the Hermes HDF5 virtual file driver (`src/H5FDhermes.c`).

The driver re-expresses a linear byte-addressable file as fixed-size pages
("blobs") held in a buffer store, optionally persisted to a POSIX backing
file on close.  We give a shallow embedding of the C code: `haddr_t` and
`size_t` values are natural numbers with explicit `% 2^64` where the C
wraps, buffers are functions `Nat → Nat` (byte at index), the bucket is a
map from page index to optional blob content, and the POSIX stream is a
content function together with a size and a stream position.

Every definition is translated from the source file; line references point
into `src/H5FDhermes.c`.
-/

/-- 2^64, the modulus of `haddr_t`/`size_t` arithmetic. -/
def TWO64 : Nat := 2 ^ 64

/-- `HADDR_UNDEF` is `(haddr_t)(-1)`. -/
def HADDR_UNDEF : Nat := TWO64 - 1

/-- `MAXADDR = (((haddr_t)1 << (8*sizeof(HDoff_t)-1)) - 1)` (line 108). -/
def MAXADDR : Nat := 2 ^ 63 - 1

/-- Interpretation of a 64-bit unsigned value as the signed `HDoff_t`. -/
def toHDoff (x : Nat) : Int :=
  if x ≤ MAXADDR then (x : Int) else (x : Int) - (TWO64 : Int)

/-- `ADDR_OVERFLOW(A)` (line 109): `HADDR_UNDEF == (A) || ((A) & ~(haddr_t)MAXADDR)`.
For `A < 2^64` the mask test is exactly `MAXADDR < A`. -/
def ADDR_OVERFLOW (a : Nat) : Bool := (a == HADDR_UNDEF) || decide (MAXADDR < a)

/-- `SIZE_OVERFLOW(Z)` (line 110). -/
def SIZE_OVERFLOW (z : Nat) : Bool := decide (MAXADDR < z)

/-- `REGION_OVERFLOW(A, Z)` (lines 111-112); `(A)+(Z)` wraps mod 2^64. -/
def REGION_OVERFLOW (a z : Nat) : Bool :=
  ADDR_OVERFLOW a || SIZE_OVERFLOW z || ((a + z) % TWO64 == HADDR_UNDEF) ||
    decide (toHDoff ((a + z) % TWO64) < toHDoff a)

/-- `H5F_addr_defined(X)` is `X != HADDR_UNDEF`. -/
def H5F_addr_defined (a : Nat) : Bool := a != HADDR_UNDEF

/-- `addr_end = addr + size - 1` in `haddr_t` arithmetic (lines 660, 808, 451):
wraps to `2^64 - 1` when `addr = size = 0`. -/
def addrEndOf (addr size : Nat) : Nat := (addr + size + (TWO64 - 1)) % TWO64

/-- `memcpy(dst + doff, src + soff, n)` on byte functions. -/
def memcpy (dst : Nat → Nat) (doff : Nat) (src : Nat → Nat) (soff n : Nat) :
    Nat → Nat :=
  fun i => if doff ≤ i ∧ i < doff + n then src (soff + (i - doff)) else dst i

/-- `H5FD_file_op_t` values used by the driver. -/
inductive H5FD_file_op_t where
  | OP_UNKNOWN
  | OP_READ
  | OP_WRITE
deriving DecidableEq, Repr

/-- `struct blob_file_mapping` (lines 61-66). -/
structure blob_file_mapping where
  start_page_index : Nat
  num_pages : Nat
  size : Nat
  addr : Nat
deriving DecidableEq, Repr

/-- One call into the Hermes bucket API, recorded so that theorems can speak
about which buffer-store operations an entry point issues. -/
inductive BktEvent where
  | containsBlob (k : Nat)
  | getBlob (k : Nat)
  | putBlob (k : Nat)
deriving DecidableEq, Repr

/-- `H5FD_hermes_t` (lines 69-85).  The bucket (`bkt_handle`) is modelled by
`blobs` (page index → optional blob content, each blob `buf_size` bytes) and
the event log `bkt_log`; the `FILE *fp` stream by the flag `fp` (non-NULL?),
`backing`/`back_size` (file bytes and length) and `file_pos` (stream
position).  `num_writes` is the length of `hermes_file_mapping`. -/
structure H5FD_hermes_t where
  eoa : Nat
  eof : Nat
  pos : Nat
  op : H5FD_file_op_t
  persistence : Bool
  fp : Bool
  file_pos : Nat
  backing : Nat → Nat
  back_size : Nat
  buf_size : Nat
  blobs : Nat → Option (Nat → Nat)
  page_buf : Nat → Nat
  page_buf_null : Bool
  hermes_file_mapping : List blob_file_mapping
  ref_count : Nat
  bkt_log : List BktEvent

/-- The byte the bucket holds for absolute address `b`, if any. -/
def blobAtF (f : H5FD_hermes_t) (b : Nat) : Option Nat :=
  (f.blobs (b / f.buf_size)).map (fun pg => pg (b % f.buf_size))

/-- The `done:` block of read/write (lines 773-778, 906-911): on failure the
last file I/O information is reset. -/
def ioErrReset (f : H5FD_hermes_t) : H5FD_hermes_t :=
  { f with pos := HADDR_UNDEF, op := .OP_UNKNOWN }

/-- Result of fetching one page into `page_buf` during a read (the
`!blob_exists` / `blob_exists` arms of lines 702-714 and 733-745).
`nullFp` marks the undefined behavior of `fseek`/`fread` on a NULL stream. -/
inductive PageFetch where
  | ok (f : H5FD_hermes_t)
  | err (f : H5FD_hermes_t)
  | nullFp

/-- Fetch page `k` into `page_buf`: if the blob is absent, `fseek(fp, addr)`
then `fread(page_buf, 1, blob_size, fp)`, failing unless a full `blob_size`
bytes arrive; if present, `HermesBucketGet` into `page_buf`.  Note the C
seeks to `addr` (the original request address), not to `k*blob_size`. -/
def fetchToPageBuf (f : H5FD_hermes_t) (addr k : Nat) : PageFetch :=
  match f.blobs k with
  | none =>
    if f.fp then
      let r := min f.buf_size (f.back_size - addr)
      let f1 := { f with file_pos := addr + r,
                         page_buf := memcpy f.page_buf 0 f.backing addr r }
      if r = f.buf_size then .ok f1 else .err f1
    else .nullFp
  | some pg =>
    .ok { f with page_buf := memcpy f.page_buf 0 pg 0 f.buf_size,
                 bkt_log := .getBlob k :: f.bkt_log }

/-- Result of fetching one page directly into the destination buffer
(whole-page read, lines 751-765). -/
inductive PageFetchB where
  | ok (f : H5FD_hermes_t) (buf : Nat → Nat)
  | err (f : H5FD_hermes_t)
  | nullFp

/-- Whole-page fetch into `buf + transfer`: `fread(buf+transfer_size, 1,
blob_size, fp)` after `fseek(fp, addr)` when the blob is absent, otherwise
`HermesBucketGet` directly into the destination slice. -/
def fetchToBuf (f : H5FD_hermes_t) (addr k transfer : Nat) (buf : Nat → Nat) :
    PageFetchB :=
  match f.blobs k with
  | none =>
    if f.fp then
      let r := min f.buf_size (f.back_size - addr)
      let f1 := { f with file_pos := addr + r }
      let buf1 := memcpy buf transfer f.backing addr r
      if r = f.buf_size then .ok f1 buf1 else .err f1
    else .nullFp
  | some pg =>
    .ok { f with bkt_log := .getBlob k :: f.bkt_log }
      (memcpy buf transfer pg 0 f.buf_size)

/-- Result of `H5FD__hermes_read`: success carries the updated file and the
filled destination buffer. -/
inductive ReadResult where
  | ok (f : H5FD_hermes_t) (buf : Nat → Nat)
  | err (f : H5FD_hermes_t)
  | nullFp

/-- The page loop of `H5FD__hermes_read` (lines 688-767), one iteration per
page `k`; `fuel` counts the remaining iterations (`end_page_index + 1 - k`).
The three branches are the first-partial / last-partial / whole-page cases
with their exact C conditions. -/
def H5FD__hermes_read_loop (f : H5FD_hermes_t) (addr size addr_end : Nat)
    (buf : Nat → Nat) (transfer k fuel : Nat) : ReadResult :=
  match fuel with
  | 0 => .ok f buf
  | fuel' + 1 =>
    let P := f.buf_size
    let f0 := { f with bkt_log := .containsBlob k :: f.bkt_log }
    if addr > k * P ∧ addr < (k + 1) * P then
      match fetchToPageBuf f0 addr k with
      | .nullFp => .nullFp
      | .err f1 => .err f1
      | .ok f1 =>
        let offset := addr - k * P
        if addr_end ≤ (k + 1) * P - 1 then
          H5FD__hermes_read_loop f1 addr size addr_end
            (memcpy buf 0 f1.page_buf offset size) (transfer + size)
            (k + 1) fuel'
        else
          H5FD__hermes_read_loop f1 addr size addr_end
            (memcpy buf 0 f1.page_buf offset ((k + 1) * P - addr))
            (transfer + ((k + 1) * P - addr)) (k + 1) fuel'
    else if addr_end ≥ k * P ∧ addr_end < (k + 1) * P - 1 then
      match fetchToPageBuf f0 addr k with
      | .nullFp => .nullFp
      | .err f1 => .err f1
      | .ok f1 =>
        H5FD__hermes_read_loop f1 addr size addr_end
          (memcpy buf transfer f1.page_buf 0 (addr_end - k * P + 1))
          (transfer + (addr_end - k * P + 1)) (k + 1) fuel'
    else if addr ≤ k * P ∧ addr_end ≥ (k + 1) * P - 1 then
      match fetchToBuf f0 addr k transfer buf with
      | .nullFp => .nullFp
      | .err f1 => .err f1
      | .ok f1 buf1 =>
        H5FD__hermes_read_loop f1 addr size addr_end buf1 (transfer + P)
          (k + 1) fuel'
    else
      H5FD__hermes_read_loop f0 addr size addr_end buf transfer (k + 1) fuel'

/-- `H5FD__hermes_read` (lines 649-781).  `buf` is the caller's buffer. -/
def H5FD__hermes_read (f : H5FD_hermes_t) (addr size : Nat) (buf : Nat → Nat) :
    ReadResult :=
  if ¬ H5F_addr_defined addr then .err (ioErrReset f)
  else if REGION_OVERFLOW addr size then .err (ioErrReset f)
  else if f.page_buf_null then .err (ioErrReset f)
  else if size = 0 then .ok f buf
  else if f.eof ≤ addr then .ok f (memcpy buf 0 (fun _ => 0) 0 size)
  else
    let P := f.buf_size
    let addr_end := addrEndOf addr size
    let s := addr / P
    let e := (addr + size) / P
    match H5FD__hermes_read_loop f addr size addr_end buf 0 s (e + 1 - s) with
    | .ok f1 buf1 =>
      .ok { f1 with pos := (addr + size) % TWO64, op := .OP_READ } buf1
    | .err f1 => .err (ioErrReset f1)
    | .nullFp => .nullFp

/-- Result of `H5FD__hermes_write`. -/
inductive WriteResult where
  | ok (f : H5FD_hermes_t)
  | err (f : H5FD_hermes_t)

/-- The page loop of `H5FD__hermes_write` (lines 842-898).  The loop has no
failure exits; partial pages are read-modify-written through `page_buf`
(no fault-in from the backing file), whole pages are put directly from the
source buffer. -/
def H5FD__hermes_write_loop (f : H5FD_hermes_t) (addr size addr_end : Nat)
    (buf : Nat → Nat) (transfer k fuel : Nat) : H5FD_hermes_t :=
  match fuel with
  | 0 => f
  | fuel' + 1 =>
    let P := f.buf_size
    if addr > k * P ∧ addr < (k + 1) * P then
      let f0 := { f with bkt_log := .containsBlob k :: f.bkt_log }
      let f1 := match f0.blobs k with
        | some pg =>
          { f0 with page_buf := memcpy f0.page_buf 0 pg 0 P,
                    bkt_log := .getBlob k :: f0.bkt_log }
        | none => f0
      let offset := addr - k * P
      let len := if addr_end ≤ (k + 1) * P - 1 then size else (k + 1) * P - addr
      let pb := memcpy f1.page_buf offset buf transfer len
      let f2 := { f1 with page_buf := pb,
                          blobs := Function.update f1.blobs k (some pb),
                          bkt_log := .putBlob k :: f1.bkt_log }
      H5FD__hermes_write_loop f2 addr size addr_end buf (transfer + len)
        (k + 1) fuel'
    else if addr_end ≥ k * P ∧ addr_end < (k + 1) * P - 1 then
      let f0 := { f with bkt_log := .containsBlob k :: f.bkt_log }
      let f1 := match f0.blobs k with
        | some pg =>
          { f0 with page_buf := memcpy f0.page_buf 0 pg 0 P,
                    bkt_log := .getBlob k :: f0.bkt_log }
        | none => f0
      let len := addr_end - k * P + 1
      let pb := memcpy f1.page_buf 0 buf transfer len
      let f2 := { f1 with page_buf := pb,
                          blobs := Function.update f1.blobs k (some pb),
                          bkt_log := .putBlob k :: f1.bkt_log }
      H5FD__hermes_write_loop f2 addr size addr_end buf (transfer + len)
        (k + 1) fuel'
    else if addr ≤ k * P ∧ addr_end ≥ (k + 1) * P - 1 then
      let f2 := { f with
        blobs := Function.update f.blobs k (some (fun o => buf (transfer + o))),
        bkt_log := .putBlob k :: f.bkt_log }
      H5FD__hermes_write_loop f2 addr size addr_end buf (transfer + P)
        (k + 1) fuel'
    else
      H5FD__hermes_write_loop f addr size addr_end buf transfer (k + 1) fuel'

/-- `H5FD__hermes_write` (lines 797-914).  A `blob_file_mapping` entry is
recorded before the page loop (lines 829-839). -/
def H5FD__hermes_write (f : H5FD_hermes_t) (addr size : Nat)
    (buf : Nat → Nat) : WriteResult :=
  if ¬ H5F_addr_defined addr then .err (ioErrReset f)
  else if REGION_OVERFLOW addr size then .err (ioErrReset f)
  else if f.page_buf_null then .err (ioErrReset f)
  else
    let P := f.buf_size
    let addr_end := addrEndOf addr size
    let s := addr / P
    let e := (addr + size) / P
    let m : blob_file_mapping :=
      { start_page_index := s, num_pages := e - s + 1, size := size,
        addr := addr }
    let f0 := { f with hermes_file_mapping := f.hermes_file_mapping ++ [m] }
    let f1 := H5FD__hermes_write_loop f0 addr size addr_end buf 0 s (e + 1 - s)
    .ok { f1 with pos := (addr + size) % TWO64, op := .OP_WRITE,
                  eof := max f1.eof ((addr + size) % TWO64) }

/-- `fwrite(src + soff, 1, n, fp)` on a stream at position `pos` with current
content `backing` of length `bsize`: bytes between the old end of file and
the position read back as zero (seek past end then write creates a hole),
the written range takes the source bytes, and the size grows to at least
`pos + n`.  Returns the new content, size, and stream position. -/
def fwriteUpd (backing : Nat → Nat) (bsize pos : Nat) (src : Nat → Nat)
    (soff n : Nat) : (Nat → Nat) × Nat × Nat :=
  (memcpy (fun i => if bsize ≤ i ∧ i < pos then 0 else backing i) pos src soff n,
   max bsize (pos + n), pos + n)

/-- Intermediate result of the close write-back loops. -/
inductive CloseStep where
  | ok (f : H5FD_hermes_t)
  | err (f : H5FD_hermes_t)
  | nullFp

/-- Inner loop of `H5FD__hermes_close` (lines 454-488): write pages
`j = start .. start+num-1` of one recorded mapping back to the stream.
`fseek` happens only at `j = start`; later pages continue sequentially. -/
def H5FD__hermes_close_pages (f : H5FD_hermes_t)
    (start num addr size addr_end : Nat) (j fuel : Nat) : CloseStep :=
  match fuel with
  | 0 => .ok f
  | fuel' + 1 =>
    let P := f.buf_size
    let f0 := { f with bkt_log := .containsBlob j :: f.bkt_log }
    match f0.blobs j with
    | none => .err f0
    | some pg =>
      let f1 := { f0 with page_buf := memcpy f0.page_buf 0 pg 0 P,
                          bkt_log := .getBlob j :: f0.bkt_log }
      let step : (Nat → Nat) × Nat × Nat :=
        if j = start then
          let bytes_in := if addr_end ≤ (j + 1) * P - 1 then size
                          else (j + 1) * P - addr
          fwriteUpd f1.backing f1.back_size addr f1.page_buf (addr - P * j)
            bytes_in
        else if j = start + num - 1 then
          fwriteUpd f1.backing f1.back_size f1.file_pos f1.page_buf 0
            (addr_end % P + 1)
        else
          fwriteUpd f1.backing f1.back_size f1.file_pos f1.page_buf 0 P
      let f2 := { f1 with backing := step.1, back_size := step.2.1,
                          file_pos := step.2.2 }
      H5FD__hermes_close_pages f2 start num addr size addr_end (j + 1) fuel'

/-- Outer loop of `H5FD__hermes_close` (lines 447-495): replay every recorded
write mapping in order, then update `pos`, `op` and `eof` per mapping
(lines 490-494). -/
def H5FD__hermes_close_maps (f : H5FD_hermes_t)
    (ms : List blob_file_mapping) : CloseStep :=
  match ms with
  | [] => .ok f
  | m :: rest =>
    let addr_end := addrEndOf m.addr m.size
    match H5FD__hermes_close_pages f m.start_page_index m.num_pages m.addr
        m.size addr_end m.start_page_index m.num_pages with
    | .err f1 => .err f1
    | .nullFp => .nullFp
    | .ok f1 =>
      let p := (m.addr + m.size) % TWO64
      H5FD__hermes_close_maps
        { f1 with pos := p, op := .OP_WRITE, eof := max f1.eof p } rest

/-- Result of `H5FD__hermes_close`: on success the final state (with the
backing file as written) is returned; on failure the file is not freed. -/
inductive CloseResult where
  | ok (f : H5FD_hermes_t)
  | err (f : H5FD_hermes_t)
  | nullFp

/-- `H5FD__hermes_close` (lines 433-510).  In persistent mode every recorded
mapping is written back through the stream, then the stream is closed; the
bucket is destroyed (`ref_count` is always 1) which drops all blobs. -/
def H5FD__hermes_close (f : H5FD_hermes_t) : CloseResult :=
  if f.persistence then
    if ¬ f.fp then .nullFp
    else
      match H5FD__hermes_close_maps f f.hermes_file_mapping with
      | .err f1 => .err f1
      | .nullFp => .nullFp
      | .ok f1 =>
        if f1.ref_count > 1 then .ok { f1 with fp := false }
        else .ok { f1 with fp := false, blobs := fun _ => none }
  else
    if f.ref_count > 1 then .ok f
    else .ok { f with blobs := fun _ => none }

/-- Host open flags relevant to the driver (`H5F_ACC_*`). -/
structure OpenFlags where
  rdwr : Bool
  creat : Bool
  trunc : Bool
  excl : Bool

/-- `H5FD_hermes_fapl_t` (lines 88-91). -/
structure H5FD_hermes_fapl_t where
  persistence : Bool
  page_size : Nat

/-- Helper building the freshly opened file object (lines 386-409):
`eof = ftell` after seeking to the end in persistent mode, 0 otherwise
(the struct is calloc-ed); the bucket starts with no blobs; `page_buf` is
malloc-ed, so its initial contents `residue` are arbitrary. -/
def mkOpened (fa : H5FD_hermes_fapl_t) (hasFp : Bool) (content : Nat → Nat)
    (sz : Nat) (residue : Nat → Nat) : H5FD_hermes_t :=
  { eoa := 0, eof := if hasFp then sz else 0, pos := 0, op := .OP_UNKNOWN,
    persistence := fa.persistence, fp := hasFp, file_pos := sz,
    backing := content, back_size := sz, buf_size := fa.page_size,
    blobs := fun _ => none, page_buf := residue, page_buf_null := false,
    hermes_file_mapping := [], ref_count := 1, bkt_log := [] }

/-- `H5FD__hermes_open` (lines 309-421).  `disk` is the pre-existing backing
file, if any (content and size); `residue` is the malloc garbage initially
in `page_buf`.  Buffer-store initialization is modelled as succeeding. -/
def H5FD__hermes_open (name : String) (flags : OpenFlags)
    (fa : H5FD_hermes_fapl_t) (maxaddr : Nat)
    (disk : Option ((Nat → Nat) × Nat)) (residue : Nat → Nat) :
    Option H5FD_hermes_t :=
  if name.isEmpty then none
  else if maxaddr = 0 ∨ maxaddr = HADDR_UNDEF then none
  else if ADDR_OVERFLOW maxaddr then none
  else if fa.persistence then
    match disk with
    | none =>
      if flags.creat then some (mkOpened fa true (fun _ => 0) 0 residue)
      else none
    | some (content, sz) =>
      if flags.excl then none
      else if flags.rdwr ∧ flags.trunc then
        some (mkOpened fa true (fun _ => 0) 0 residue)
      else some (mkOpened fa true content sz residue)
  else some (mkOpened fa false (fun _ => 0) 0 residue)

/-- Is a bucket event a `HermesBucketPut`? -/
def isPutEvent : BktEvent → Bool
  | .putBlob _ => true
  | _ => false

/-! ## Basic arithmetic facts about the overflow macros -/

theorem TWO64_pos : 0 < TWO64 := by norm_num [TWO64]

/-- `REGION_OVERFLOW(A, Z)` is false exactly when `A + Z ≤ MAXADDR`. -/
theorem REGION_OVERFLOW_eq_false (a z : Nat) :
    REGION_OVERFLOW a z = false ↔ a + z ≤ MAXADDR := by
  constructor
  · intro h
    by_contra hgt
    push_neg at hgt
    have htrue : REGION_OVERFLOW a z = true := by
      unfold REGION_OVERFLOW ADDR_OVERFLOW SIZE_OVERFLOW
      by_cases ha : MAXADDR < a
      · simp [ha]
      · by_cases hz : MAXADDR < z
        · simp [hz]
        · push_neg at ha hz
          have hlt : a + z < TWO64 := by unfold TWO64 MAXADDR at *; omega
          have hoff : toHDoff ((a + z) % TWO64) < toHDoff a := by
            rw [Nat.mod_eq_of_lt hlt]
            unfold toHDoff
            rw [if_neg (by omega), if_pos ha]
            have hzlt : (z : Int) < (TWO64 : Int) := by
              exact_mod_cast (by unfold TWO64 MAXADDR at *; omega : z < TWO64)
            push_cast
            omega
          simp [hoff]
    rw [h] at htrue
    cases htrue
  · intro h
    have ha : a ≤ MAXADDR := le_trans (Nat.le_add_right _ _) h
    have hz : z ≤ MAXADDR := le_trans (Nat.le_add_left _ _) h
    have hlt : a + z < TWO64 := by unfold TWO64 MAXADDR at *; omega
    have hne : (a == HADDR_UNDEF) = false := by
      rw [beq_eq_false_iff_ne]
      intro he
      rw [he] at ha
      unfold HADDR_UNDEF TWO64 MAXADDR at ha
      omega
    have hne2 : ((a + z) % TWO64 == HADDR_UNDEF) = false := by
      rw [Nat.mod_eq_of_lt hlt, beq_eq_false_iff_ne]
      intro he
      rw [he] at h
      unfold HADDR_UNDEF TWO64 MAXADDR at h
      omega
    have hoff : ¬ (toHDoff ((a + z) % TWO64) < toHDoff a) := by
      rw [Nat.mod_eq_of_lt hlt]
      unfold toHDoff
      rw [if_pos h, if_pos ha]
      push_cast
      omega
    unfold REGION_OVERFLOW ADDR_OVERFLOW SIZE_OVERFLOW
    rw [Bool.or_eq_false_iff, Bool.or_eq_false_iff, Bool.or_eq_false_iff,
        Bool.or_eq_false_iff]
    exact ⟨⟨⟨⟨hne, decide_eq_false (by omega)⟩, decide_eq_false (by omega)⟩,
      hne2⟩, decide_eq_false hoff⟩

theorem addr_ne_undef_of_region (a z : Nat)
    (h : REGION_OVERFLOW a z = false) : H5F_addr_defined a = true := by
  have ha : a ≤ MAXADDR :=
    le_trans (Nat.le_add_right _ _) ((REGION_OVERFLOW_eq_false a z).mp h)
  simp only [H5F_addr_defined, bne_iff_ne, ne_eq]
  intro he
  rw [he] at ha
  unfold HADDR_UNDEF TWO64 MAXADDR at ha
  omega

theorem addrEndOf_eq (a z : Nat) (h1 : 0 < a + z) (h2 : a + z ≤ TWO64) :
    addrEndOf a z = a + z - 1 := by
  unfold addrEndOf
  have he : a + z + (TWO64 - 1) = (a + z - 1) + TWO64 := by
    have := TWO64_pos; omega
  rw [he, Nat.add_mod_right, Nat.mod_eq_of_lt (by have := TWO64_pos; omega)]

theorem sum_mod_TWO64 (a z : Nat) (h : a + z ≤ MAXADDR) :
    (a + z) % TWO64 = a + z :=
  Nat.mod_eq_of_lt (by unfold TWO64 MAXADDR at *; omega)

theorem memcpy_in (d : Nat → Nat) (doff : Nat) (s : Nat → Nat) (soff n i : Nat)
    (h1 : doff ≤ i) (h2 : i < doff + n) :
    memcpy d doff s soff n i = s (soff + (i - doff)) := if_pos ⟨h1, h2⟩

theorem memcpy_out (d : Nat → Nat) (doff : Nat) (s : Nat → Nat) (soff n i : Nat)
    (h : i < doff ∨ doff + n ≤ i) :
    memcpy d doff s soff n i = d i := if_neg (by omega)

/-! ## State-preservation lemmas for the page loops -/

/-- Fields of the file object that the read page loop never modifies (it
touches only `page_buf`, `file_pos` and the event log, and it never issues
a put). -/
def readUntouched (f g : H5FD_hermes_t) : Prop :=
  g.blobs = f.blobs ∧ g.eof = f.eof ∧ g.eoa = f.eoa ∧ g.pos = f.pos ∧
  g.op = f.op ∧ g.buf_size = f.buf_size ∧
  g.hermes_file_mapping = f.hermes_file_mapping ∧
  g.persistence = f.persistence ∧ g.fp = f.fp ∧ g.backing = f.backing ∧
  g.back_size = f.back_size ∧ g.page_buf_null = f.page_buf_null ∧
  g.ref_count = f.ref_count ∧
  g.bkt_log.filter isPutEvent = f.bkt_log.filter isPutEvent

theorem readUntouched_refl (f : H5FD_hermes_t) : readUntouched f f :=
  ⟨rfl, rfl, rfl, rfl, rfl, rfl, rfl, rfl, rfl, rfl, rfl, rfl, rfl, rfl⟩

theorem readUntouched_trans {f g h : H5FD_hermes_t}
    (h1 : readUntouched f g) (h2 : readUntouched g h) : readUntouched f h := by
  obtain ⟨a1,a2,a3,a4,a5,a6,a7,a8,a9,a10,a11,a12,a13,a14⟩ := h1
  obtain ⟨b1,b2,b3,b4,b5,b6,b7,b8,b9,b10,b11,b12,b13,b14⟩ := h2
  exact ⟨b1.trans a1, b2.trans a2, b3.trans a3, b4.trans a4, b5.trans a5,
    b6.trans a6, b7.trans a7, b8.trans a8, b9.trans a9, b10.trans a10,
    b11.trans a11, b12.trans a12, b13.trans a13, b14.trans a14⟩

theorem fetchToPageBuf_untouched (f : H5FD_hermes_t) (addr k : Nat)
    (g : H5FD_hermes_t) (h : fetchToPageBuf f addr k = .ok g) :
    readUntouched f g := by
  unfold fetchToPageBuf at h
  split at h
  · dsimp only at h
    split at h
    · split at h
      · cases h
        exact ⟨rfl, rfl, rfl, rfl, rfl, rfl, rfl, rfl, rfl, rfl, rfl, rfl,
          rfl, rfl⟩
      · cases h
    · cases h
  · cases h
    refine ⟨rfl, rfl, rfl, rfl, rfl, rfl, rfl, rfl, rfl, rfl, rfl, rfl, rfl, ?_⟩
    simp [isPutEvent]

theorem fetchToBuf_untouched (f : H5FD_hermes_t) (addr k transfer : Nat)
    (buf : Nat → Nat) (g : H5FD_hermes_t) (out : Nat → Nat)
    (h : fetchToBuf f addr k transfer buf = .ok g out) :
    readUntouched f g := by
  unfold fetchToBuf at h
  split at h
  · dsimp only at h
    split at h
    · split at h
      · cases h
        exact ⟨rfl, rfl, rfl, rfl, rfl, rfl, rfl, rfl, rfl, rfl, rfl, rfl,
          rfl, rfl⟩
      · cases h
    · cases h
  · cases h
    refine ⟨rfl, rfl, rfl, rfl, rfl, rfl, rfl, rfl, rfl, rfl, rfl, rfl, rfl, ?_⟩
    simp [isPutEvent]

theorem contains_log_untouched (f : H5FD_hermes_t) (k : Nat) :
    readUntouched f { f with bkt_log := .containsBlob k :: f.bkt_log } := by
  refine ⟨rfl, rfl, rfl, rfl, rfl, rfl, rfl, rfl, rfl, rfl, rfl, rfl, rfl, ?_⟩
  simp [isPutEvent]

/-- The read page loop leaves all state except `page_buf`, `file_pos` and the
non-put part of the event log unchanged. -/
theorem read_loop_untouched (fuel : Nat) :
    ∀ (f : H5FD_hermes_t) (addr size addr_end : Nat) (buf : Nat → Nat)
      (transfer k : Nat) (g : H5FD_hermes_t) (out : Nat → Nat),
      H5FD__hermes_read_loop f addr size addr_end buf transfer k fuel =
        .ok g out → readUntouched f g := by
  induction fuel with
  | zero =>
    intro f addr size addr_end buf transfer k g out h
    unfold H5FD__hermes_read_loop at h
    cases h
    exact readUntouched_refl f
  | succ fuel' ih =>
    intro f addr size addr_end buf transfer k g out h
    unfold H5FD__hermes_read_loop at h
    dsimp only at h
    split at h
    · rename_i hc1
      cases hf : fetchToPageBuf { f with bkt_log := .containsBlob k :: f.bkt_log } addr k with
      | nullFp => rw [hf] at h; cases h
      | err f1 => rw [hf] at h; cases h
      | ok f1 =>
        rw [hf] at h
        have hu1 := readUntouched_trans (contains_log_untouched f k)
          (fetchToPageBuf_untouched _ addr k f1 hf)
        dsimp only at h
        split at h
        · exact readUntouched_trans hu1 (ih f1 _ _ _ _ _ _ g out h)
        · exact readUntouched_trans hu1 (ih f1 _ _ _ _ _ _ g out h)
    · split at h
      · cases hf : fetchToPageBuf { f with bkt_log := .containsBlob k :: f.bkt_log } addr k with
        | nullFp => rw [hf] at h; cases h
        | err f1 => rw [hf] at h; cases h
        | ok f1 =>
          rw [hf] at h
          have hu1 := readUntouched_trans (contains_log_untouched f k)
            (fetchToPageBuf_untouched _ addr k f1 hf)
          exact readUntouched_trans hu1 (ih f1 _ _ _ _ _ _ g out h)
      · split at h
        · cases hf : fetchToBuf { f with bkt_log := .containsBlob k :: f.bkt_log } addr k transfer buf with
          | nullFp => rw [hf] at h; cases h
          | err f1 => rw [hf] at h; cases h
          | ok f1 buf1 =>
            rw [hf] at h
            have hu1 := readUntouched_trans (contains_log_untouched f k)
              (fetchToBuf_untouched _ addr k transfer buf f1 buf1 hf)
            exact readUntouched_trans hu1 (ih f1 _ _ _ _ _ _ g out h)
        · exact readUntouched_trans (contains_log_untouched f k)
            (ih _ _ _ _ _ _ _ g out h)

/-- Fields of the file object that the write page loop never modifies (it
touches only `page_buf`, `blobs` and the event log). -/
def writeLoopFixed (f g : H5FD_hermes_t) : Prop :=
  g.eoa = f.eoa ∧ g.eof = f.eof ∧ g.pos = f.pos ∧ g.op = f.op ∧
  g.persistence = f.persistence ∧ g.fp = f.fp ∧ g.file_pos = f.file_pos ∧
  g.backing = f.backing ∧ g.back_size = f.back_size ∧
  g.buf_size = f.buf_size ∧ g.page_buf_null = f.page_buf_null ∧
  g.hermes_file_mapping = f.hermes_file_mapping ∧ g.ref_count = f.ref_count

theorem writeLoopFixed_refl (f : H5FD_hermes_t) : writeLoopFixed f f :=
  ⟨rfl, rfl, rfl, rfl, rfl, rfl, rfl, rfl, rfl, rfl, rfl, rfl, rfl⟩

theorem writeLoopFixed_trans {f g h : H5FD_hermes_t}
    (h1 : writeLoopFixed f g) (h2 : writeLoopFixed g h) :
    writeLoopFixed f h := by
  obtain ⟨a1,a2,a3,a4,a5,a6,a7,a8,a9,a10,a11,a12,a13⟩ := h1
  obtain ⟨b1,b2,b3,b4,b5,b6,b7,b8,b9,b10,b11,b12,b13⟩ := h2
  exact ⟨b1.trans a1, b2.trans a2, b3.trans a3, b4.trans a4, b5.trans a5,
    b6.trans a6, b7.trans a7, b8.trans a8, b9.trans a9, b10.trans a10,
    b11.trans a11, b12.trans a12, b13.trans a13⟩

/-- The write page loop changes only `page_buf`, `blobs` and the event log. -/
theorem write_loop_fixed (fuel : Nat) :
    ∀ (f : H5FD_hermes_t) (addr size addr_end : Nat) (buf : Nat → Nat)
      (transfer k : Nat),
      writeLoopFixed f
        (H5FD__hermes_write_loop f addr size addr_end buf transfer k fuel) := by
  induction fuel with
  | zero =>
    intro f addr size addr_end buf transfer k
    exact writeLoopFixed_refl f
  | succ fuel' ih =>
    intro f addr size addr_end buf transfer k
    unfold H5FD__hermes_write_loop
    dsimp only
    split
    · cases hb : f.blobs k with
      | some pg =>
        refine writeLoopFixed_trans ?_ (ih _ _ _ _ _ _ _)
        exact ⟨rfl, rfl, rfl, rfl, rfl, rfl, rfl, rfl, rfl, rfl, rfl, rfl, rfl⟩
      | none =>
        refine writeLoopFixed_trans ?_ (ih _ _ _ _ _ _ _)
        exact ⟨rfl, rfl, rfl, rfl, rfl, rfl, rfl, rfl, rfl, rfl, rfl, rfl, rfl⟩
    · split
      · cases hb : f.blobs k with
        | some pg =>
          refine writeLoopFixed_trans ?_ (ih _ _ _ _ _ _ _)
          exact ⟨rfl, rfl, rfl, rfl, rfl, rfl, rfl, rfl, rfl, rfl, rfl, rfl, rfl⟩
        | none =>
          refine writeLoopFixed_trans ?_ (ih _ _ _ _ _ _ _)
          exact ⟨rfl, rfl, rfl, rfl, rfl, rfl, rfl, rfl, rfl, rfl, rfl, rfl, rfl⟩
      · split
        · refine writeLoopFixed_trans ?_ (ih _ _ _ _ _ _ _)
          exact ⟨rfl, rfl, rfl, rfl, rfl, rfl, rfl, rfl, rfl, rfl, rfl, rfl, rfl⟩
        · exact ih _ _ _ _ _ _ _

/-! ## Concrete test fixtures used by the witnesses and counterexamples -/

/-- The all-zero byte function. -/
def bufZ : Nat → Nat := fun _ => 0

/-- A file object with page size 4: `persist` selects persistent mode (and a
live stream), `bk`/`bsz` give the backing file, `eof0` the starting `eof`;
the bucket is empty, `page_buf` is zero-initialized. -/
def testState (persist : Bool) (bk : Nat → Nat) (bsz eof0 : Nat) :
    H5FD_hermes_t :=
  { eoa := 0, eof := eof0, pos := 0, op := .OP_UNKNOWN, persistence := persist,
    fp := persist, file_pos := bsz, backing := bk, back_size := bsz,
    buf_size := 4, blobs := fun _ => none, page_buf := fun _ => 0,
    page_buf_null := false, hermes_file_mapping := [], ref_count := 1,
    bkt_log := [] }

/-! ## Claim C6: sparse-read zero-fill -/

/-- C6.  A read with `size > 0` starting at or beyond `eof` (with the entry
validation passing: no region overflow and an allocated transfer buffer)
succeeds, zero-fills the first `size` bytes of the destination, and leaves
the file object completely unchanged — in particular no buffer-store
operation (contains/get/put) is issued (lines 676-682 return before any
bucket call). -/
theorem hermes_read_sparse_zero_fill (f : H5FD_hermes_t) (addr size : Nat)
    (buf : Nat → Nat) (hz : size ≠ 0) (he : f.eof ≤ addr)
    (hv : REGION_OVERFLOW addr size = false) (hpb : f.page_buf_null = false) :
    H5FD__hermes_read f addr size buf =
      .ok f (memcpy buf 0 (fun _ => 0) 0 size) := by
  have hdef := addr_ne_undef_of_region addr size hv
  simp [H5FD__hermes_read, hdef, hv, hpb, hz, he]

/-- Witness for C6 at a concrete input: a fresh non-persistent file
(`eof = 0`), read of 3 bytes at address 5. -/
theorem hermes_read_sparse_zero_fill_witness :
    H5FD__hermes_read (testState false bufZ 0 0) 5 3 bufZ =
      .ok (testState false bufZ 0 0) (memcpy bufZ 0 (fun _ => 0) 0 3) :=
  hermes_read_sparse_zero_fill (testState false bufZ 0 0) 5 3 bufZ
    (by decide) (by decide) (by decide) (by decide)

/-! ## Claim C8: error reset of position state -/

/-- C8.  Whenever `H5FD__hermes_read` or `H5FD__hermes_write` returns
failure (argument error, overflow, uninitialized transfer buffer, or — for
reads — a backing-file short read), the returned file object has
`pos = HADDR_UNDEF` and `op = OP_UNKNOWN` (the `done:` blocks at lines
773-778 and 906-911). -/
theorem hermes_rw_error_resets_pos_op :
    (∀ (f : H5FD_hermes_t) (addr size : Nat) (buf : Nat → Nat)
        (g : H5FD_hermes_t),
        H5FD__hermes_read f addr size buf = .err g →
        g.pos = HADDR_UNDEF ∧ g.op = .OP_UNKNOWN) ∧
    (∀ (f : H5FD_hermes_t) (addr size : Nat) (buf : Nat → Nat)
        (g : H5FD_hermes_t),
        H5FD__hermes_write f addr size buf = .err g →
        g.pos = HADDR_UNDEF ∧ g.op = .OP_UNKNOWN) := by
  constructor
  · intro f addr size buf g h
    unfold H5FD__hermes_read at h
    split at h
    · cases h; exact ⟨rfl, rfl⟩
    · split at h
      · cases h; exact ⟨rfl, rfl⟩
      · split at h
        · cases h; exact ⟨rfl, rfl⟩
        · split at h
          · cases h
          · split at h
            · cases h
            · dsimp only at h
              split at h
              · cases h
              · cases h; exact ⟨rfl, rfl⟩
              · cases h
  · intro f addr size buf g h
    unfold H5FD__hermes_write at h
    split at h
    · cases h; exact ⟨rfl, rfl⟩
    · split at h
      · cases h; exact ⟨rfl, rfl⟩
      · split at h
        · cases h; exact ⟨rfl, rfl⟩
        · cases h

/-- A file whose transfer buffer was never allocated (`page_buf == NULL`). -/
def fileNoBuf : H5FD_hermes_t :=
  { testState false bufZ 0 0 with page_buf_null := true }

/-- Witness for C8: a read on a file with a NULL transfer buffer fails and
the returned object has the reset position state. -/
theorem hermes_rw_error_resets_pos_op_witness :
    (ioErrReset fileNoBuf).pos = HADDR_UNDEF ∧
    (ioErrReset fileNoBuf).op = .OP_UNKNOWN :=
  hermes_rw_error_resets_pos_op.1 fileNoBuf 0 1 bufZ (ioErrReset fileNoBuf) rfl

/-! ## Claim C7: EOF initialization and monotonicity -/

/-- C7.  `eof` is initialized at open to the backing file's size in
persistent mode (lines 388-392) and to 0 otherwise (the struct is
calloc-ed); a successful read leaves it unchanged; a successful write sets
it to `max eof (addr + size)` (lines 900-904), so it never decreases
across successful operations. -/
theorem hermes_eof_monotonicity :
    (∀ (nm : String) (flags : OpenFlags) (fa : H5FD_hermes_fapl_t)
        (maxaddr : Nat) (disk : Option ((Nat → Nat) × Nat))
        (residue : Nat → Nat) (f : H5FD_hermes_t),
        H5FD__hermes_open nm flags fa maxaddr disk residue = some f →
        f.eof = if fa.persistence then f.back_size else 0) ∧
    (∀ (f : H5FD_hermes_t) (addr size : Nat) (buf : Nat → Nat)
        (g : H5FD_hermes_t) (out : Nat → Nat),
        H5FD__hermes_read f addr size buf = .ok g out → g.eof = f.eof) ∧
    (∀ (f : H5FD_hermes_t) (addr size : Nat) (buf : Nat → Nat)
        (g : H5FD_hermes_t),
        H5FD__hermes_write f addr size buf = .ok g →
        g.eof = max f.eof (addr + size) ∧ f.eof ≤ g.eof) := by
  refine ⟨?_, ?_, ?_⟩
  · intro nm flags fa maxaddr disk residue f h
    unfold H5FD__hermes_open at h
    split at h
    · cases h
    · split at h
      · cases h
      · split at h
        · cases h
        · split at h
          · rename_i hp
            split at h
            · split at h
              · cases h
                simp [mkOpened, hp]
              · cases h
            · split at h
              · cases h
              · split at h
                · cases h
                  simp [mkOpened, hp]
                · cases h
                  simp [mkOpened, hp]
          · rename_i hp
            cases h
            simp only [mkOpened]
            rw [if_neg (by simp at hp; simp [hp]), if_neg (by simp at hp; simp [hp])]
  · intro f addr size buf g out h
    unfold H5FD__hermes_read at h
    split at h
    · cases h
    · split at h
      · cases h
      · split at h
        · cases h
        · split at h
          · cases h; rfl
          · split at h
            · cases h; rfl
            · dsimp only at h
              split at h
              · rename_i f1 buf1 heq
                cases h
                exact (read_loop_untouched _ _ _ _ _ _ _ _ _ _ heq).2.1
              · cases h
              · cases h
  · intro f addr size buf g h
    unfold H5FD__hermes_write at h
    split at h
    · cases h
    · split at h
      · cases h
      · split at h
        · cases h
        · rename_i h1 hv hpb
          cases h
          have hsum : (addr + size) % TWO64 = addr + size :=
            sum_mod_TWO64 addr size
              ((REGION_OVERFLOW_eq_false addr size).mp (by
                cases hR : REGION_OVERFLOW addr size
                · rfl
                · exact absurd hR hv))
          have hfix := write_loop_fixed ((addr + size) / f.buf_size + 1 -
              addr / f.buf_size)
            { f with hermes_file_mapping := f.hermes_file_mapping ++
                [{ start_page_index := addr / f.buf_size,
                   num_pages := (addr + size) / f.buf_size -
                     addr / f.buf_size + 1, size := size, addr := addr }] }
            addr size (addrEndOf addr size) buf 0 (addr / f.buf_size)
          refine ⟨?_, ?_⟩
          · show max _ ((addr + size) % TWO64) = _
            rw [hfix.2.1, hsum]
          · show f.eof ≤ max _ ((addr + size) % TWO64)
            rw [hfix.2.1]
            exact le_max_left _ _

/-- Concrete opened persistent file: existing 7-byte backing file, page
size 4, read-write open without truncation. -/
def c7file : H5FD_hermes_t :=
  match H5FD__hermes_open "f" ⟨true, true, false, false⟩ ⟨true, 4⟩ 100
      (some (bufZ, 7)) bufZ with
  | some f => f
  | none => testState false bufZ 0 0

/-- Concrete state after writing 4 bytes at address 0 of a fresh
non-persistent file. -/
def c7w : H5FD_hermes_t :=
  match H5FD__hermes_write (testState false bufZ 0 0) 0 4 (fun _ => 1) with
  | .ok g => g
  | .err g => g

/-- Witness for C7: the three conjuncts applied at concrete inputs — a
persistent open of an existing 7-byte file, a sparse read, and a 4-byte
write at address 0. -/
theorem hermes_eof_monotonicity_witness :
    (c7file.eof =
      if (⟨true, 4⟩ : H5FD_hermes_fapl_t).persistence then c7file.back_size
      else 0) ∧
    (testState false bufZ 0 0).eof = (testState false bufZ 0 0).eof ∧
    (c7w.eof = max (testState false bufZ 0 0).eof (0 + 4) ∧
      (testState false bufZ 0 0).eof ≤ c7w.eof) :=
  ⟨hermes_eof_monotonicity.1 "f" ⟨true, true, false, false⟩ ⟨true, 4⟩ 100
      (some (bufZ, 7)) bufZ c7file rfl,
   hermes_eof_monotonicity.2.1 (testState false bufZ 0 0) 5 3 bufZ
      (testState false bufZ 0 0) (memcpy bufZ 0 (fun _ => 0) 0 3) rfl,
   hermes_eof_monotonicity.2.2 (testState false bufZ 0 0) 0 4 (fun _ => 1)
      c7w rfl⟩
/-! ## Claim C10: size-zero writes -/

/-- One step of the write loop in the whole-page case at page 0 with
`addr = size = 0`: the wrapped `addr_end = 2^64 - 1` satisfies the
whole-page condition, so a full page-0 blob is put from the caller's
buffer. -/
theorem write_loop_zero_zero (f0 : H5FD_hermes_t) (buf : Nat → Nat)
    (hPM : f0.buf_size ≤ MAXADDR) :
    H5FD__hermes_write_loop f0 0 0 (TWO64 - 1) buf 0 0 1 =
      { f0 with
        blobs := Function.update f0.blobs 0 (some (fun o => buf (0 + o))),
        bkt_log := .putBlob 0 :: f0.bkt_log } := by
  unfold H5FD__hermes_write_loop
  dsimp only
  rw [if_neg (by
      rintro ⟨h, -⟩
      rw [Nat.zero_mul] at h
      exact Nat.not_lt_zero _ h),
    if_neg (by
      rintro ⟨-, h⟩
      simp only [Nat.zero_add, Nat.one_mul] at h
      unfold TWO64 MAXADDR at *
      omega),
    if_pos ⟨Nat.zero_le _, by
      simp only [Nat.zero_add, Nat.one_mul]
      unfold TWO64 MAXADDR at *
      omega⟩]
  rfl

/-- One step of the write loop at a nonzero page-aligned address with
`size = 0`: the wrapped `addr_end = addr - 1` matches none of the three
cases, so the iteration does nothing. -/
theorem write_loop_aligned_zero (f0 : H5FD_hermes_t) (k : Nat)
    (buf : Nat → Nat) (hP : 0 < f0.buf_size) (hk : 1 ≤ k) :
    H5FD__hermes_write_loop f0 (k * f0.buf_size) 0 (k * f0.buf_size - 1)
      buf 0 k 1 = f0 := by
  have hkp : 1 ≤ k * f0.buf_size := by
    calc 1 = 1 * 1 := rfl
    _ ≤ k * f0.buf_size := Nat.mul_le_mul hk hP
  unfold H5FD__hermes_write_loop
  dsimp only
  rw [if_neg (by
      rintro ⟨h, -⟩
      exact absurd h (lt_irrefl _)),
    if_neg (by
      rintro ⟨h, -⟩
      omega),
    if_neg (by
      rintro ⟨-, h⟩
      rw [Nat.succ_mul] at h
      omega)]
  rfl

/-- C10.  A write of size 0 is not rejected.  Since `addr_end = addr+size-1`
wraps modulo 2^64: `write(0, 0, buf)` matches the whole-page case and
stores a full page-0 blob taken from the caller's buffer, while
`write(k*P, 0, buf)` at a nonzero page-aligned address matches no case and
performs no blob operation; both succeed with `pos = addr`,
`op = OP_WRITE`. -/
theorem hermes_write_size_zero_cases :
    (∀ (f : H5FD_hermes_t) (buf : Nat → Nat),
        f.page_buf_null = false → 0 < f.buf_size → f.buf_size ≤ MAXADDR →
        ∃ g, H5FD__hermes_write f 0 0 buf = .ok g ∧
          (∃ pg, g.blobs 0 = some pg ∧ ∀ o, pg o = buf o) ∧
          g.pos = 0 ∧ g.op = .OP_WRITE) ∧
    (∀ (f : H5FD_hermes_t) (k : Nat) (buf : Nat → Nat),
        f.page_buf_null = false → 0 < f.buf_size → 1 ≤ k →
        k * f.buf_size ≤ MAXADDR →
        ∃ g, H5FD__hermes_write f (k * f.buf_size) 0 buf = .ok g ∧
          g.blobs = f.blobs ∧ g.bkt_log = f.bkt_log ∧
          g.pos = k * f.buf_size ∧ g.op = .OP_WRITE) := by
  constructor
  · intro f buf hpb hP hPM
    have hA : addrEndOf 0 0 = TWO64 - 1 := by
      unfold addrEndOf
      have := TWO64_pos
      simp only [Nat.zero_add]
      exact Nat.mod_eq_of_lt (by omega)
    unfold H5FD__hermes_write
    rw [if_neg (by decide), if_neg (by decide), if_neg (by simp [hpb])]
    dsimp only
    simp only [Nat.add_zero, Nat.zero_div, Nat.zero_add, Nat.sub_zero,
      Nat.zero_mod, hA]
    rw [write_loop_zero_zero]
    · refine ⟨_, rfl, ⟨fun o => buf (0 + o), ?_,
        fun o => congrArg buf (Nat.zero_add o)⟩, rfl, rfl⟩
      dsimp only
      exact Function.update_same 0 _ _
    · exact hPM
  · intro f k buf hpb hP hk hPM
    have hv : REGION_OVERFLOW (k * f.buf_size) 0 = false :=
      (REGION_OVERFLOW_eq_false _ 0).mpr (by omega)
    have hdef := addr_ne_undef_of_region _ 0 hv
    have hkp : 1 ≤ k * f.buf_size := by
      calc 1 = 1 * 1 := rfl
      _ ≤ k * f.buf_size := Nat.mul_le_mul hk hP
    have hA : addrEndOf (k * f.buf_size) 0 = k * f.buf_size - 1 := by
      have h0 : (k * f.buf_size + 0) = k * f.buf_size := Nat.add_zero _
      rw [addrEndOf_eq _ 0 (by omega) (by unfold TWO64 MAXADDR at *; omega),
        h0]
    have hsd : k * f.buf_size / f.buf_size = k := Nat.mul_div_cancel k hP
    have hsum : k * f.buf_size % TWO64 = k * f.buf_size :=
      Nat.mod_eq_of_lt (by unfold TWO64 MAXADDR at *; omega)
    unfold H5FD__hermes_write
    rw [if_neg (by simp [hdef]), if_neg (by simp [hv]),
      if_neg (by simp [hpb])]
    dsimp only
    simp only [Nat.add_zero, hsd, Nat.add_sub_cancel_left, hA, hsum]
    rw [write_loop_aligned_zero]
    · exact ⟨_, rfl, rfl, rfl, rfl, rfl⟩
    · exact hP
    · exact hk

/-- Witness for C10: both size-zero write behaviors at page size 4 on a
fresh non-persistent file. -/
theorem hermes_write_size_zero_cases_witness :
    (∃ g, H5FD__hermes_write (testState false bufZ 0 0) 0 0 (fun _ => 3) =
        .ok g ∧
      (∃ pg, g.blobs 0 = some pg ∧ ∀ o, pg o = (fun _ => (3:Nat)) o) ∧
      g.pos = 0 ∧ g.op = .OP_WRITE) ∧
    (∃ g, H5FD__hermes_write (testState false bufZ 0 0)
        (1 * (testState false bufZ 0 0).buf_size) 0 (fun _ => 3) = .ok g ∧
      g.blobs = (testState false bufZ 0 0).blobs ∧
      g.bkt_log = (testState false bufZ 0 0).bkt_log ∧
      g.pos = 1 * (testState false bufZ 0 0).buf_size ∧
      g.op = .OP_WRITE) :=
  ⟨hermes_write_size_zero_cases.1 (testState false bufZ 0 0) (fun _ => 3)
      rfl (by decide) (by decide),
   hermes_write_size_zero_cases.2 (testState false bufZ 0 0) 1 (fun _ => 3)
      rfl (by decide) (by decide) (by decide)⟩

/-! ## Projections used to state concrete evaluations -/

/-- The file object carried by a write result (error or success). -/
def WriteResult.stateOf : WriteResult → H5FD_hermes_t
  | .ok g => g
  | .err g => g

/-- Byte `i` of the destination buffer of a successful read. -/
def ReadResult.outByte : ReadResult → Nat → Option Nat
  | .ok _ out, i => some (out i)
  | _, _ => none

/-- The file object of a successful read. -/
def ReadResult.stateOf : ReadResult → Option H5FD_hermes_t
  | .ok g _ => some g
  | _ => none

/-- Did the read fail (FAIL return, not undefined behavior)? -/
def ReadResult.isErr : ReadResult → Bool
  | .err _ => true
  | _ => false

/-- Did the close fail? -/
def CloseResult.isErr : CloseResult → Bool
  | .err _ => true
  | _ => false

/-- Byte `i` of the backing file after a successful close. -/
def CloseResult.backingByte : CloseResult → Nat → Option Nat
  | .ok g, i => some (g.backing i)
  | _, _ => none

/-! ## Claim C1: last-writer-wins — counterexample -/

/-- State after writing `[1,1,1,1]` at address 0 on a fresh non-persistent
file with page size 4. -/
def c1w1 : H5FD_hermes_t :=
  (H5FD__hermes_write (testState false bufZ 0 0) 0 4 (fun _ => 1)).stateOf

/-- State after the subsequent size-0 write at address 0 with a buffer of
2s. -/
def c1w2 : H5FD_hermes_t :=
  (H5FD__hermes_write c1w1 0 0 (fun _ => 2)).stateOf

/-- C1 counterexample.  Write `[1,1,1,1]` at address 0, then issue a
successful size-0 write at address 0 whose buffer holds 2s: the size-0
write covers no byte, so the last write covering byte 0 stored value 1 —
yet the subsequent read of byte 0 returns 2 (the wrapped
`addr_end = 2^64-1` makes the size-0 write match the whole-page case and
overwrite blob 0 from the caller's buffer). -/
theorem hermes_last_writer_wins_cex :
    H5FD__hermes_write (testState false bufZ 0 0) 0 4 (fun _ => 1) =
      .ok c1w1 ∧
    H5FD__hermes_write c1w1 0 0 (fun _ => 2) = .ok c1w2 ∧
    ReadResult.outByte (H5FD__hermes_read c1w2 0 4 (fun _ => 99)) 0 =
      some 2 ∧
    (2 : Nat) ≠ 1 := by
  refine ⟨rfl, rfl, by decide, by decide⟩

/-! ## Claim C2: persistence equivalence — counterexample -/

/-- Persistent file over an existing backing file of 8 nines, `eof = 8`. -/
def c2base : H5FD_hermes_t := testState true (fun _ => 9) 8 8

/-- State after writing `[5,5]` at address 0. -/
def c2w : H5FD_hermes_t :=
  (H5FD__hermes_write c2base 0 2 (fun _ => 5)).stateOf

/-- C2 counterexample.  Persistent mode over an existing backing file of
nines (`eof = 8`): after writing `[5,5]` at address 0 and closing
successfully, byte 2 lies in `[0, eof)`; a pre-close engine read of byte 2
returns 0 (the zero residue captured in blob 0), but the close writes back
only the recorded 2-byte range, so the backing file still holds 9 at
byte 2 — the backing file does not equal the blob concatenation truncated
to `eof`, nor the bytes pre-close reads returned. -/
theorem hermes_persistence_equivalence_cex :
    H5FD__hermes_write c2base 0 2 (fun _ => 5) = .ok c2w ∧
    c2w.eof = 8 ∧
    ReadResult.outByte (H5FD__hermes_read c2w 2 1 bufZ) 0 = some 0 ∧
    CloseResult.backingByte (H5FD__hermes_close c2w) 2 = some 9 ∧
    (9 : Nat) ≠ 0 := by
  refine ⟨rfl, by decide, by decide, by decide, by decide⟩

/-! ## Claim C3: fault-in placement and short-read tolerance — code bug -/

/-- Persistent file whose backing file holds 3 bytes (`eof = 3`). -/
def c3short : H5FD_hermes_t := testState true (fun i => 65 + i) 3 3

/-- Persistent file whose backing file holds 8 bytes `10+i` (`eof = 8`). -/
def c3mid : H5FD_hermes_t := testState true (fun i => 10 + i) 8 8

/-- C3 divergence.  (1) Reading 2 bytes at address 0 of a persistent file
with `eof = 3 < P = 4` fails: the fault path `fread`s a full `blob_size`
from the stream and rejects the 3-byte short read, although the claim
says the engine requests `min(P, eof - k·P) = 3` bytes and accepts that
short read.  (2) Reading 2 bytes at address 1 (page 0 absent, backing
byte `i` holds `10+i`) succeeds but returns bytes 12, 13 — the engine
seeks to `addr = 1` instead of `k·P = 0`, so the data is shifted; the
claim's placement would return bytes 11, 12. -/
theorem hermes_fault_in_wrong_offset_and_short_read :
    ReadResult.isErr (H5FD__hermes_read c3short 0 2 bufZ) = true ∧
    ReadResult.outByte (H5FD__hermes_read c3mid 1 2 bufZ) 0 = some 12 ∧
    ReadResult.outByte (H5FD__hermes_read c3mid 1 2 bufZ) 1 = some 13 ∧
    c3mid.backing 1 = 11 ∧ c3mid.backing 2 = 12 := by
  refine ⟨by decide, by decide, by decide, by decide, by decide⟩

/-! ## Claim C4: fault promotion — counterexample -/

/-- Persistent file whose backing file holds 12 bytes `i+1` (`eof = 12`). -/
def c4base : H5FD_hermes_t := testState true (fun i => i + 1) 12 12

/-- C4 counterexample.  A successful whole-page fault-in read of page 0
from the backing file leaves the bucket without a blob for page 0 and
issues no put: the fault is not promoted into the buffer store. -/
theorem hermes_fault_promotion_cex :
    (ReadResult.stateOf (H5FD__hermes_read c4base 0 4 bufZ)).map
      (fun g => (g.blobs 0).isSome) = some false ∧
    (ReadResult.stateOf (H5FD__hermes_read c4base 0 4 bufZ)).map
      (fun g => (g.bkt_log.filter isPutEvent).length) = some 0 ∧
    ReadResult.outByte (H5FD__hermes_read c4base 0 4 bufZ) 0 = some 1 := by
  refine ⟨by decide, by decide, by decide⟩

/-! ## Claim C5: missing blob in non-persistent mode — code bug -/

/-- State after writing 2 bytes at address 4 of a fresh non-persistent
file: `eof = 6`, only page 1 has a blob. -/
def c5w : H5FD_hermes_t :=
  (H5FD__hermes_write (testState false bufZ 0 0) 4 2 (fun _ => 7)).stateOf

/-- C5 divergence.  In non-persistent mode, after a write that leaves
page 0 without a blob (`eof = 6`), a read of bytes `[0, 2)` reaches the
absent-blob path with `addr < eof`; instead of returning a
"blob not retrievable" failure, the code calls `fseek`/`fread` on the
NULL backing stream (`file->fp` was calloc-ed to NULL) — undefined
behavior, modelled by the `nullFp` outcome. -/
theorem hermes_missing_blob_null_stream :
    H5FD__hermes_write (testState false bufZ 0 0) 4 2 (fun _ => 7) =
      .ok c5w ∧
    c5w.eof = 6 ∧ (c5w.blobs 0).isSome = false ∧
    H5FD__hermes_read c5w 0 2 bufZ = .nullFp := by
  refine ⟨rfl, by decide, by decide, rfl⟩

/-! ## Claim C4 amended: reads never promote -/

/-- C4 amended.  A successful read leaves the bucket contents unchanged and
issues no put, so a later access to a page that was faulted in from the
backing file faults from the backing file again (there is no promotion
into the buffer store). -/
theorem hermes_read_never_promotes (f : H5FD_hermes_t) (addr size : Nat)
    (buf : Nat → Nat) (g : H5FD_hermes_t) (out : Nat → Nat)
    (h : H5FD__hermes_read f addr size buf = .ok g out) :
    g.blobs = f.blobs ∧
    g.bkt_log.filter isPutEvent = f.bkt_log.filter isPutEvent := by
  unfold H5FD__hermes_read at h
  split at h
  · cases h
  · split at h
    · cases h
    · split at h
      · cases h
      · split at h
        · cases h
          exact ⟨rfl, rfl⟩
        · split at h
          · cases h
            exact ⟨rfl, rfl⟩
          · dsimp only at h
            split at h
            · rename_i f1 buf1 heq
              cases h
              obtain ⟨b1, _, _, _, _, _, _, _, _, _, _, _, _, b14⟩ :=
                read_loop_untouched _ _ _ _ _ _ _ _ _ _ heq
              exact ⟨b1, b14⟩
            · cases h
            · cases h

/-- State of the C4 fault-in read (page 0 faulted from the backing file). -/
def c4ok : H5FD_hermes_t :=
  match H5FD__hermes_read c4base 0 4 bufZ with
  | .ok g _ => g
  | .err g => g
  | .nullFp => c4base

/-- Output buffer of the C4 fault-in read. -/
def c4out : Nat → Nat :=
  match H5FD__hermes_read c4base 0 4 bufZ with
  | .ok _ o => o
  | _ => bufZ

/-- Witness for the amended C4 at a concrete fault-in read. -/
theorem hermes_read_never_promotes_witness :
    c4ok.blobs = c4base.blobs ∧
    c4ok.bkt_log.filter isPutEvent = c4base.bkt_log.filter isPutEvent :=
  hermes_read_never_promotes c4base 0 4 bufZ c4ok c4out rfl

/-! ## Division helpers for the page-range arithmetic -/

theorem lt_div_succ_mul (a P : Nat) (hP : 0 < P) : a < (a / P + 1) * P := by
  rw [Nat.succ_mul]
  have h1 := Nat.div_add_mod a P
  have h2 : P * (a / P) = a / P * P := Nat.mul_comm _ _
  have h3 := Nat.mod_lt a hP
  omega

theorem div_eq_and_mod (P k b : Nat) (hP : 0 < P) (h1 : k * P ≤ b)
    (h2 : b < (k + 1) * P) : b / P = k ∧ b % P = b - k * P := by
  have hdiv := Nat.div_eq_of_lt_le h1 h2
  have hdm := Nat.div_add_mod b P
  have hmc : P * (b / P) = b / P * P := Nat.mul_comm _ _
  refine ⟨hdiv, ?_⟩
  rw [hdiv] at hdm hmc
  omega

theorem page_range (P b k : Nat) (hP : 0 < P) (h : b / P = k) :
    k * P ≤ b ∧ b < (k + 1) * P := by
  have h1 := Nat.div_mul_le_self b P
  have h2 := lt_div_succ_mul b P hP
  rw [h] at h1 h2
  exact ⟨h1, h2⟩
/-! ## Characterization of the write page loop -/

/-- What the write page loop processing pages `k ..` guarantees about the
bucket: pages outside the touched range are unchanged, every byte of the
write range from page `k` on ends up in its page's blob at the right
offset, and previously defined bucket bytes outside the write range are
preserved. -/
def WriteSuffixSpec (P a z : Nat) (buf : Nat → Nat) (k : Nat)
    (f g : H5FD_hermes_t) : Prop :=
  (∀ m, ¬(k ≤ m ∧ m ≤ (a + z) / P ∧ m * P < a + z) →
    g.blobs m = f.blobs m) ∧
  (∀ b, a ≤ b → k * P ≤ b → b < a + z →
    ∃ pg, g.blobs (b / P) = some pg ∧ pg (b % P) = buf (b - a)) ∧
  (∀ b v, (b < a ∨ a + z ≤ b) →
    (f.blobs (b / P)).map (fun pg => pg (b % P)) = some v →
    (g.blobs (b / P)).map (fun pg => pg (b % P)) = some v)

/-- Composition of one write-loop iteration at page `k` with the suffix
specification for pages `k+1 ..`. -/
theorem WriteSuffixSpec.step (P a z : Nat) (buf : Nat → Nat) (k : Nat)
    (f f2 g : H5FD_hermes_t) (hP : 0 < P)
    (hcov : ∀ b, a ≤ b → k * P ≤ b → b < a + z → b < (k + 1) * P →
      ∃ pg, f2.blobs (b / P) = some pg ∧ pg (b % P) = buf (b - a))
    (hpres : ∀ b v, (b < a ∨ a + z ≤ b) →
      (f.blobs (b / P)).map (fun pg => pg (b % P)) = some v →
      (f2.blobs (b / P)).map (fun pg => pg (b % P)) = some v)
    (hunch : ∀ m, m ≠ k → f2.blobs m = f.blobs m)
    (hkor : f2.blobs k = f.blobs k ∨ (k ≤ (a + z) / P ∧ k * P < a + z))
    (hspec : WriteSuffixSpec P a z buf (k + 1) f2 g) :
    WriteSuffixSpec P a z buf k f g := by
  obtain ⟨i1, i2, i3⟩ := hspec
  refine ⟨?_, ?_, ?_⟩
  · intro m hm
    have hm1 : ¬(k + 1 ≤ m ∧ m ≤ (a + z) / P ∧ m * P < a + z) := by
      intro hcc
      exact hm ⟨by omega, hcc.2.1, hcc.2.2⟩
    rw [i1 m hm1]
    by_cases hmk : m = k
    · subst hmk
      cases hkor with
      | inl h => exact h
      | inr h => exact absurd ⟨le_refl m, h.1, h.2⟩ hm
    · exact hunch m hmk
  · intro b hab hkb hbz
    by_cases hb : b < (k + 1) * P
    · obtain ⟨pg, hpg, hval⟩ := hcov b hab hkb hbz hb
      have hdm := div_eq_and_mod P k b hP hkb hb
      have hgb : g.blobs (b / P) = f2.blobs (b / P) := by
        rw [hdm.1]
        exact i1 k (by intro hcc; omega)
      exact ⟨pg, hgb ▸ hpg, hval⟩
    · exact i2 b hab (by omega) hbz
  · intro b v hout hv
    exact i3 b v hout (hpres b v hout hv)

/-- The coverage obligation for one put at page `k`, given pointwise
correctness of the put blob on the written offsets. -/
theorem step_obligations (P a z : Nat) (hP : 0 < P) (buf : Nat → Nat)
    (k : Nat) (bl : Nat → Option (Nat → Nat)) (pb : Nat → Nat)
    (hcovpb : ∀ b, a ≤ b → k * P ≤ b → b < a + z → b < (k + 1) * P →
      pb (b % P) = buf (b - a)) :
    ∀ b, a ≤ b → k * P ≤ b → b < a + z → b < (k + 1) * P →
      ∃ pg, Function.update bl k (some pb) (b / P) = some pg ∧
        pg (b % P) = buf (b - a) := by
  intro b h1 h2 h3 h4
  have hdm := div_eq_and_mod P k b hP h2 h4
  rw [hdm.1, Function.update_same]
  exact ⟨pb, rfl, hcovpb b h1 h2 h3 h4⟩

/-- The preservation obligation for one put at page `k`, given that the put
blob keeps the old bytes at offsets outside the write range. -/
theorem step_preserve (P : Nat) (hP : 0 < P) (a z k : Nat)
    (bl : Nat → Option (Nat → Nat)) (pb : Nat → Nat)
    (hpb : ∀ b v, (b < a ∨ a + z ≤ b) → b / P = k →
      (bl k).map (fun pg => pg (b % P)) = some v → pb (b % P) = v) :
    ∀ b v, (b < a ∨ a + z ≤ b) →
      (bl (b / P)).map (fun pg => pg (b % P)) = some v →
      (Function.update bl k (some pb) (b / P)).map
        (fun pg => pg (b % P)) = some v := by
  intro b v hout hv
  by_cases hpk : b / P = k
  · rw [hpk] at hv ⊢
    rw [Function.update_same, Option.map_some']
    exact congrArg some (hpb b v hout hpk hv)
  · rw [Function.update_noteq hpk]
    exact hv

set_option maxHeartbeats 1600000 in
/-- Full characterization of the write page loop (lines 842-898) for a
valid positive-size request, by induction on the remaining pages. -/
theorem write_loop_blobs (P a z : Nat) (hP : 0 < P) (hz : 0 < z) :
    ∀ (fuel k t : Nat) (f : H5FD_hermes_t) (buf : Nat → Nat),
      f.buf_size = P → k + fuel = (a + z) / P + 1 → a / P ≤ k →
      (k ≤ (a + z) / P → t = k * P - a) →
      WriteSuffixSpec P a z buf k f
        (H5FD__hermes_write_loop f a z (a + z - 1) buf t k fuel) := by
  intro fuel
  induction fuel with
  | zero =>
    intro k t f buf hbs hsum hks ht
    subst hbs
    have hk : k = (a + z) / f.buf_size + 1 := by omega
    subst hk
    have hb2 := lt_div_succ_mul (a + z) f.buf_size hP
    refine ⟨fun m _ => rfl, ?_, fun b v _ hv => hv⟩
    intro b hab hkb hbz
    exact absurd hkb (by omega)
  | succ fuel' ih =>
    intro k t f buf hbs hsum hks ht
    subst hbs
    have hke : k ≤ (a + z) / f.buf_size := by omega
    have htt := ht hke
    subst htt
    have hsP1 := Nat.div_mul_le_self a f.buf_size
    have hsP2 := lt_div_succ_mul a f.buf_size hP
    have heP1 := Nat.div_mul_le_self (a + z) f.buf_size
    have heP2 := lt_div_succ_mul (a + z) f.buf_size hP
    have hkP_le : k * f.buf_size ≤ (a + z) / f.buf_size * f.buf_size :=
      Nat.mul_le_mul_right _ hke
    have hksP : a / f.buf_size * f.buf_size ≤ k * f.buf_size :=
      Nat.mul_le_mul_right _ hks
    have hsm : (k + 1) * f.buf_size = k * f.buf_size + f.buf_size :=
      Nat.succ_mul _ _
    have hsm2 : (a / f.buf_size + 1) * f.buf_size =
        a / f.buf_size * f.buf_size + f.buf_size := Nat.succ_mul _ _
    have hsm3 : ((a + z) / f.buf_size + 1) * f.buf_size =
        (a + z) / f.buf_size * f.buf_size + f.buf_size := Nat.succ_mul _ _
    have hs1P : (a / f.buf_size + 1) * f.buf_size ≤ (k + 1) * f.buf_size :=
      Nat.mul_le_mul_right _ (by omega)
    unfold H5FD__hermes_write_loop
    dsimp only
    by_cases hc1 : a > k * f.buf_size ∧ a < (k + 1) * f.buf_size
    · rw [if_pos hc1]
      obtain ⟨hc1a, hc1b⟩ := hc1
      cases hbg : f.blobs k with
      | some pg =>
        dsimp only
        by_cases hone : a + z - 1 ≤ (k + 1) * f.buf_size - 1
        · rw [if_pos hone]
          refine WriteSuffixSpec.step _ a z buf k f _ _ hP
            (step_obligations _ a z hP buf k f.blobs _ ?_)
            (step_preserve _ hP a z k f.blobs _ ?_)
            (fun m hm => Function.update_noteq hm _ _)
            (Or.inr ⟨hke, by omega⟩)
            (ih (k + 1) (k * f.buf_size - a + z) _ buf rfl (by omega)
              (by omega) (fun h1 => by
                have h2 := (Nat.le_div_iff_mul_le hP).mp h1
                omega))
          · intro b h1 h2 h3 h4
            have hdm := div_eq_and_mod f.buf_size k b hP h2 h4
            rw [hdm.2, memcpy_in _ _ _ _ _ _ (by omega) (by omega)]
            exact congrArg buf (by omega)
          · intro b v hout hpk hv
            rw [hbg, Option.map_some'] at hv
            have hbr := page_range f.buf_size b k hP hpk
            have hmod := div_eq_and_mod f.buf_size k b hP hbr.1 hbr.2
            have hmo := Nat.mod_lt b hP
            rw [memcpy_out _ _ _ _ _ _ (by omega),
              memcpy_in _ _ _ _ _ _ (by omega) (by omega)]
            rw [show 0 + (b % f.buf_size - 0) = b % f.buf_size by omega]
            exact Option.some.inj hv
        · rw [if_neg hone]
          refine WriteSuffixSpec.step _ a z buf k f _ _ hP
            (step_obligations _ a z hP buf k f.blobs _ ?_)
            (step_preserve _ hP a z k f.blobs _ ?_)
            (fun m hm => Function.update_noteq hm _ _)
            (Or.inr ⟨hke, by omega⟩)
            (ih (k + 1) (k * f.buf_size - a + ((k + 1) * f.buf_size - a)) _
              buf rfl (by omega) (by omega) (fun _ => by omega))
          · intro b h1 h2 h3 h4
            have hdm := div_eq_and_mod f.buf_size k b hP h2 h4
            rw [hdm.2, memcpy_in _ _ _ _ _ _ (by omega) (by omega)]
            exact congrArg buf (by omega)
          · intro b v hout hpk hv
            rw [hbg, Option.map_some'] at hv
            have hbr := page_range f.buf_size b k hP hpk
            have hmod := div_eq_and_mod f.buf_size k b hP hbr.1 hbr.2
            have hmo := Nat.mod_lt b hP
            have hout' : b < a := by
              cases hout with
              | inl h => exact h
              | inr h => omega
            rw [memcpy_out _ _ _ _ _ _ (by left; omega),
              memcpy_in _ _ _ _ _ _ (by omega) (by omega)]
            rw [show 0 + (b % f.buf_size - 0) = b % f.buf_size by omega]
            exact Option.some.inj hv
      | none =>
        dsimp only
        by_cases hone : a + z - 1 ≤ (k + 1) * f.buf_size - 1
        · rw [if_pos hone]
          refine WriteSuffixSpec.step _ a z buf k f _ _ hP
            (step_obligations _ a z hP buf k f.blobs _ ?_)
            (step_preserve _ hP a z k f.blobs _ ?_)
            (fun m hm => Function.update_noteq hm _ _)
            (Or.inr ⟨hke, by omega⟩)
            (ih (k + 1) (k * f.buf_size - a + z) _ buf rfl (by omega)
              (by omega) (fun h1 => by
                have h2 := (Nat.le_div_iff_mul_le hP).mp h1
                omega))
          · intro b h1 h2 h3 h4
            have hdm := div_eq_and_mod f.buf_size k b hP h2 h4
            rw [hdm.2, memcpy_in _ _ _ _ _ _ (by omega) (by omega)]
            exact congrArg buf (by omega)
          · intro b v hout hpk hv
            rw [hbg] at hv
            cases hv
        · rw [if_neg hone]
          refine WriteSuffixSpec.step _ a z buf k f _ _ hP
            (step_obligations _ a z hP buf k f.blobs _ ?_)
            (step_preserve _ hP a z k f.blobs _ ?_)
            (fun m hm => Function.update_noteq hm _ _)
            (Or.inr ⟨hke, by omega⟩)
            (ih (k + 1) (k * f.buf_size - a + ((k + 1) * f.buf_size - a)) _
              buf rfl (by omega) (by omega) (fun _ => by omega))
          · intro b h1 h2 h3 h4
            have hdm := div_eq_and_mod f.buf_size k b hP h2 h4
            rw [hdm.2, memcpy_in _ _ _ _ _ _ (by omega) (by omega)]
            exact congrArg buf (by omega)
          · intro b v hout hpk hv
            rw [hbg] at hv
            cases hv
    · rw [if_neg hc1]
      by_cases hc2 : a + z - 1 ≥ k * f.buf_size ∧
          a + z - 1 < (k + 1) * f.buf_size - 1
      · rw [if_pos hc2]
        obtain ⟨hc2a, hc2b⟩ := hc2
        have hake : a ≤ k * f.buf_size := by
          rw [not_and_or] at hc1
          cases hc1 with
          | inl h => omega
          | inr h => omega
        cases hbg : f.blobs k with
        | some pg =>
          dsimp only
          refine WriteSuffixSpec.step _ a z buf k f _ _ hP
            (step_obligations _ a z hP buf k f.blobs _ ?_)
            (step_preserve _ hP a z k f.blobs _ ?_)
            (fun m hm => Function.update_noteq hm _ _)
            (Or.inr ⟨hke, by omega⟩)
            (ih (k + 1) (k * f.buf_size - a +
                (a + z - 1 - k * f.buf_size + 1)) _ buf rfl (by omega)
              (by omega) (fun h1 => by
                have h2 := (Nat.le_div_iff_mul_le hP).mp h1
                omega))
          · intro b h1 h2 h3 h4
            have hdm := div_eq_and_mod f.buf_size k b hP h2 h4
            rw [hdm.2, memcpy_in _ _ _ _ _ _ (by omega) (by omega)]
            exact congrArg buf (by omega)
          · intro b v hout hpk hv
            rw [hbg, Option.map_some'] at hv
            have hbr := page_range f.buf_size b k hP hpk
            have hmod := div_eq_and_mod f.buf_size k b hP hbr.1 hbr.2
            have hmo := Nat.mod_lt b hP
            have hout' : a + z ≤ b := by
              cases hout with
              | inl h => omega
              | inr h => exact h
            rw [memcpy_out _ _ _ _ _ _ (by right; omega),
              memcpy_in _ _ _ _ _ _ (by omega) (by omega)]
            rw [show 0 + (b % f.buf_size - 0) = b % f.buf_size by omega]
            exact Option.some.inj hv
        | none =>
          dsimp only
          refine WriteSuffixSpec.step _ a z buf k f _ _ hP
            (step_obligations _ a z hP buf k f.blobs _ ?_)
            (step_preserve _ hP a z k f.blobs _ ?_)
            (fun m hm => Function.update_noteq hm _ _)
            (Or.inr ⟨hke, by omega⟩)
            (ih (k + 1) (k * f.buf_size - a +
                (a + z - 1 - k * f.buf_size + 1)) _ buf rfl (by omega)
              (by omega) (fun h1 => by
                have h2 := (Nat.le_div_iff_mul_le hP).mp h1
                omega))
          · intro b h1 h2 h3 h4
            have hdm := div_eq_and_mod f.buf_size k b hP h2 h4
            rw [hdm.2, memcpy_in _ _ _ _ _ _ (by omega) (by omega)]
            exact congrArg buf (by omega)
          · intro b v hout hpk hv
            rw [hbg] at hv
            cases hv
      · rw [if_neg hc2]
        by_cases hc3 : a ≤ k * f.buf_size ∧
            a + z - 1 ≥ (k + 1) * f.buf_size - 1
        · rw [if_pos hc3]
          obtain ⟨hc3a, hc3b⟩ := hc3
          have hk1z : (k + 1) * f.buf_size ≤ a + z := by omega
          refine WriteSuffixSpec.step _ a z buf k f _ _ hP
            (step_obligations _ a z hP buf k f.blobs _ ?_)
            (step_preserve _ hP a z k f.blobs _ ?_)
            (fun m hm => Function.update_noteq hm _ _)
            (Or.inr ⟨hke, by omega⟩)
            (ih (k + 1) (k * f.buf_size - a + f.buf_size) _ buf rfl
              (by omega) (by omega) (fun _ => by omega))
          · intro b h1 h2 h3 h4
            have hdm := div_eq_and_mod f.buf_size k b hP h2 h4
            show buf (k * f.buf_size - a + b % f.buf_size) = buf (b - a)
            rw [hdm.2]
            exact congrArg buf (by omega)
          · intro b v hout hpk hv
            exfalso
            have hbr := page_range f.buf_size b k hP hpk
            omega
        · rw [if_neg hc3]
          rw [not_and_or] at hc1 hc2 hc3
          refine WriteSuffixSpec.step _ a z buf k f _ _ hP ?_
            (fun b v _ hv => hv) (fun m _ => rfl) (Or.inl rfl)
            (ih (k + 1) (k * f.buf_size - a) f buf rfl (by omega) (by omega)
              (fun h1 => by
                have h2 := (Nat.le_div_iff_mul_le hP).mp h1
                exfalso
                omega))
          intro b hab hkb hbz hb
          exfalso
          omega

/-! ## Characterization of the read page loop -/

theorem fetchToPageBuf_get (f : H5FD_hermes_t) (addr k : Nat)
    (pg : Nat → Nat) (h : f.blobs k = some pg) :
    fetchToPageBuf f addr k = .ok { f with
      page_buf := memcpy f.page_buf 0 pg 0 f.buf_size,
      bkt_log := .getBlob k :: f.bkt_log } := by
  unfold fetchToPageBuf
  rw [h]

theorem fetchToBuf_get (f : H5FD_hermes_t) (addr k transfer : Nat)
    (buf : Nat → Nat) (pg : Nat → Nat) (h : f.blobs k = some pg) :
    fetchToBuf f addr k transfer buf =
      .ok { f with bkt_log := .getBlob k :: f.bkt_log }
        (memcpy buf transfer pg 0 f.buf_size) := by
  unfold fetchToBuf
  rw [h]

set_option maxHeartbeats 1600000 in
/-- Correctness of the read page loop (lines 688-767) when every page it
must classify has a blob in the bucket: the loop succeeds and each
requested byte is served from its page's blob at the right offset;
destination bytes below the incoming transfer offset are untouched. -/
theorem read_loop_bytes (P a z : Nat) (hP : 0 < P) (hz : 0 < z) :
    ∀ (fuel k t : Nat) (f : H5FD_hermes_t) (buf : Nat → Nat),
      f.buf_size = P → k + fuel = (a + z) / P + 1 → a / P ≤ k →
      (k ≤ (a + z) / P → t = k * P - a) →
      (∀ m, k ≤ m → m ≤ (a + z) / P → m * P < a + z →
        (f.blobs m).isSome = true) →
      ∃ g out, H5FD__hermes_read_loop f a z (a + z - 1) buf t k fuel =
          .ok g out ∧
        (∀ b, a ≤ b → k * P ≤ b → b < a + z → ∀ pg,
          f.blobs (b / P) = some pg → out (b - a) = pg (b % P)) ∧
        (∀ i, i < t → out i = buf i) := by
  intro fuel
  induction fuel with
  | zero =>
    intro k t f buf hbs hsum hks ht hpres
    subst hbs
    have hk : k = (a + z) / f.buf_size + 1 := by omega
    subst hk
    have hb2 := lt_div_succ_mul (a + z) f.buf_size hP
    refine ⟨f, buf, rfl, ?_, fun i _ => rfl⟩
    intro b hab hkb hbz
    exact absurd hkb (by omega)
  | succ fuel' ih =>
    intro k t f buf hbs hsum hks ht hpres
    subst hbs
    have hke : k ≤ (a + z) / f.buf_size := by omega
    have htt := ht hke
    subst htt
    have hsP1 := Nat.div_mul_le_self a f.buf_size
    have hsP2 := lt_div_succ_mul a f.buf_size hP
    have heP1 := Nat.div_mul_le_self (a + z) f.buf_size
    have heP2 := lt_div_succ_mul (a + z) f.buf_size hP
    have hkP_le : k * f.buf_size ≤ (a + z) / f.buf_size * f.buf_size :=
      Nat.mul_le_mul_right _ hke
    have hksP : a / f.buf_size * f.buf_size ≤ k * f.buf_size :=
      Nat.mul_le_mul_right _ hks
    have hsm : (k + 1) * f.buf_size = k * f.buf_size + f.buf_size :=
      Nat.succ_mul _ _
    have hsm2 : (a / f.buf_size + 1) * f.buf_size =
        a / f.buf_size * f.buf_size + f.buf_size := Nat.succ_mul _ _
    have hsm3 : ((a + z) / f.buf_size + 1) * f.buf_size =
        (a + z) / f.buf_size * f.buf_size + f.buf_size := Nat.succ_mul _ _
    have hs1P : (a / f.buf_size + 1) * f.buf_size ≤ (k + 1) * f.buf_size :=
      Nat.mul_le_mul_right _ (by omega)
    unfold H5FD__hermes_read_loop
    dsimp only
    by_cases hc1 : a > k * f.buf_size ∧ a < (k + 1) * f.buf_size
    · rw [if_pos hc1]
      obtain ⟨hc1a, hc1b⟩ := hc1
      obtain ⟨pg, hbsome⟩ := Option.isSome_iff_exists.mp
        (hpres k (le_refl k) hke (by omega))
      rw [fetchToPageBuf_get
        { f with bkt_log := .containsBlob k :: f.bkt_log } a k pg hbsome]
      dsimp only
      by_cases hone : a + z - 1 ≤ (k + 1) * f.buf_size - 1
      · rw [if_pos hone]
        obtain ⟨g, out, hloop, hcc, hkeep⟩ := ih (k + 1)
          (k * f.buf_size - a + z)
          { f with
              page_buf := memcpy f.page_buf 0 pg 0 f.buf_size,
              bkt_log := .getBlob k :: .containsBlob k :: f.bkt_log }
          (memcpy buf 0 (memcpy f.page_buf 0 pg 0 f.buf_size)
            (a - k * f.buf_size) z) rfl (by omega) (by omega)
          (fun h1 => by
            have h2 := (Nat.le_div_iff_mul_le hP).mp h1
            omega)
          (fun m h1 h2 h3 => hpres m (by omega) h2 h3)
        refine ⟨g, out, hloop, ?_, ?_⟩
        · intro b hab hkb hbz pg' hpg'
          by_cases hb : b < (k + 1) * f.buf_size
          · have hdm := div_eq_and_mod f.buf_size k b hP hkb hb
            rw [hdm.1, hbsome] at hpg'
            cases hpg'
            rw [hkeep (b - a) (by omega)]
            rw [memcpy_in _ _ _ _ _ _ (by omega) (by omega),
              memcpy_in _ _ _ _ _ _ (by omega) (by omega)]
            exact congrArg pg (by
              rw [hdm.2]
              omega)
          · exact hcc b hab (by omega) hbz pg' hpg'
        · intro i hi
          exact absurd hi (by omega)
      · rw [if_neg hone]
        obtain ⟨g, out, hloop, hcc, hkeep⟩ := ih (k + 1)
          (k * f.buf_size - a + ((k + 1) * f.buf_size - a))
          { f with
              page_buf := memcpy f.page_buf 0 pg 0 f.buf_size,
              bkt_log := .getBlob k :: .containsBlob k :: f.bkt_log }
          (memcpy buf 0 (memcpy f.page_buf 0 pg 0 f.buf_size)
            (a - k * f.buf_size) ((k + 1) * f.buf_size - a)) rfl (by omega)
          (by omega) (fun _ => by omega)
          (fun m h1 h2 h3 => hpres m (by omega) h2 h3)
        refine ⟨g, out, hloop, ?_, ?_⟩
        · intro b hab hkb hbz pg' hpg'
          by_cases hb : b < (k + 1) * f.buf_size
          · have hdm := div_eq_and_mod f.buf_size k b hP hkb hb
            rw [hdm.1, hbsome] at hpg'
            cases hpg'
            rw [hkeep (b - a) (by omega)]
            rw [memcpy_in _ _ _ _ _ _ (by omega) (by omega),
              memcpy_in _ _ _ _ _ _ (by omega) (by omega)]
            exact congrArg pg (by
              rw [hdm.2]
              omega)
          · exact hcc b hab (by omega) hbz pg' hpg'
        · intro i hi
          exact absurd hi (by omega)
    · rw [if_neg hc1]
      by_cases hc2 : a + z - 1 ≥ k * f.buf_size ∧
          a + z - 1 < (k + 1) * f.buf_size - 1
      · rw [if_pos hc2]
        obtain ⟨hc2a, hc2b⟩ := hc2
        have hake : a ≤ k * f.buf_size := by
          rw [not_and_or] at hc1
          cases hc1 with
          | inl h => omega
          | inr h => omega
        obtain ⟨pg, hbsome⟩ := Option.isSome_iff_exists.mp
          (hpres k (le_refl k) hke (by omega))
        rw [fetchToPageBuf_get
          { f with bkt_log := .containsBlob k :: f.bkt_log } a k pg hbsome]
        dsimp only
        obtain ⟨g, out, hloop, hcc, hkeep⟩ := ih (k + 1)
          (k * f.buf_size - a + (a + z - 1 - k * f.buf_size + 1))
          { f with
              page_buf := memcpy f.page_buf 0 pg 0 f.buf_size,
              bkt_log := .getBlob k :: .containsBlob k :: f.bkt_log }
          (memcpy buf (k * f.buf_size - a)
            (memcpy f.page_buf 0 pg 0 f.buf_size) 0
            (a + z - 1 - k * f.buf_size + 1)) rfl (by omega) (by omega)
          (fun h1 => by
            have h2 := (Nat.le_div_iff_mul_le hP).mp h1
            omega)
          (fun m h1 h2 h3 => hpres m (by omega) h2 h3)
        refine ⟨g, out, hloop, ?_, ?_⟩
        · intro b hab hkb hbz pg' hpg'
          by_cases hb : b < (k + 1) * f.buf_size
          · have hdm := div_eq_and_mod f.buf_size k b hP hkb hb
            rw [hdm.1, hbsome] at hpg'
            cases hpg'
            rw [hkeep (b - a) (by omega)]
            rw [memcpy_in _ _ _ _ _ _ (by omega) (by omega),
              memcpy_in _ _ _ _ _ _ (by omega) (by omega)]
            exact congrArg pg (by
              rw [hdm.2]
              omega)
          · exact hcc b hab (by omega) hbz pg' hpg'
        · intro i hi
          rw [hkeep i (by omega), memcpy_out _ _ _ _ _ _ (by omega)]
      · rw [if_neg hc2]
        by_cases hc3 : a ≤ k * f.buf_size ∧
            a + z - 1 ≥ (k + 1) * f.buf_size - 1
        · rw [if_pos hc3]
          obtain ⟨hc3a, hc3b⟩ := hc3
          have hk1z : (k + 1) * f.buf_size ≤ a + z := by omega
          obtain ⟨pg, hbsome⟩ := Option.isSome_iff_exists.mp
            (hpres k (le_refl k) hke (by omega))
          rw [fetchToBuf_get
            { f with bkt_log := .containsBlob k :: f.bkt_log } a k
            (k * f.buf_size - a) buf pg hbsome]
          dsimp only
          obtain ⟨g, out, hloop, hcc, hkeep⟩ := ih (k + 1)
            (k * f.buf_size - a + f.buf_size)
            { f with bkt_log := .getBlob k :: .containsBlob k :: f.bkt_log }
            (memcpy buf (k * f.buf_size - a) pg 0 f.buf_size) rfl (by omega)
            (by omega) (fun _ => by omega)
            (fun m h1 h2 h3 => hpres m (by omega) h2 h3)
          refine ⟨g, out, hloop, ?_, ?_⟩
          · intro b hab hkb hbz pg' hpg'
            by_cases hb : b < (k + 1) * f.buf_size
            · have hdm := div_eq_and_mod f.buf_size k b hP hkb hb
              rw [hdm.1, hbsome] at hpg'
              cases hpg'
              rw [hkeep (b - a) (by omega)]
              rw [memcpy_in _ _ _ _ _ _ (by omega) (by omega)]
              exact congrArg pg (by
                rw [hdm.2]
                omega)
            · exact hcc b hab (by omega) hbz pg' hpg'
          · intro i hi
            rw [hkeep i (by omega), memcpy_out _ _ _ _ _ _ (by omega)]
        · rw [if_neg hc3]
          rw [not_and_or] at hc1 hc2 hc3
          obtain ⟨g, out, hloop, hcc, hkeep⟩ := ih (k + 1)
            (k * f.buf_size - a) { f with bkt_log := .containsBlob k :: f.bkt_log } buf rfl (by omega) (by omega)
            (fun h1 => by
              have h2 := (Nat.le_div_iff_mul_le hP).mp h1
              exfalso
              omega)
            (fun m h1 h2 h3 => hpres m (by omega) h2 h3)
          refine ⟨g, out, hloop, ?_, fun i hi => hkeep i hi⟩
          intro b hab hkb hbz pg' hpg'
          by_cases hb : b < (k + 1) * f.buf_size
          · exfalso
            omega
          · exact hcc b hab (by omega) hbz pg' hpg'

/-! ## Last-writer-wins invariant -/

/-- The shadow state: what the last successful write stored at each byte
(`none` if no write covered the byte). -/
def wrShadow (σ : Nat → Option Nat) (a z : Nat) (d : Nat → Nat) :
    Nat → Option Nat :=
  fun b => if a ≤ b ∧ b < a + z then some (d (b - a)) else σ b

/-- The bucket agrees with the shadow state: every written byte is stored
in its page's blob at the right offset, and lies below `eof`. -/
def lastWriteInv (f : H5FD_hermes_t) (σ : Nat → Option Nat) : Prop :=
  ∀ b v, σ b = some v →
    ((∃ pg, f.blobs (b / f.buf_size) = some pg ∧
       pg (b % f.buf_size) = v) ∧ b < f.eof)

/-- A successful positive-size write updates the bucket exactly as the
shadow state update describes, and preserves the administrative fields. -/
theorem write_preserves_inv (f g : H5FD_hermes_t) (a z : Nat)
    (d : Nat → Nat) (σ : Nat → Option Nat) (hP : 0 < f.buf_size)
    (hz : 0 < z) (hinv : lastWriteInv f σ)
    (h : H5FD__hermes_write f a z d = .ok g) :
    lastWriteInv g (wrShadow σ a z d) ∧ g.buf_size = f.buf_size ∧
    g.page_buf_null = f.page_buf_null := by
  unfold H5FD__hermes_write at h
  split at h
  · cases h
  · split at h
    · cases h
    · split at h
      · cases h
      · rename_i hd hreg hpb
        have hregF : REGION_OVERFLOW a z = false := by
          cases hR : REGION_OVERFLOW a z
          · rfl
          · exact absurd hR hreg
        have hMA : a + z ≤ MAXADDR := (REGION_OVERFLOW_eq_false a z).mp hregF
        have haE : addrEndOf a z = a + z - 1 :=
          addrEndOf_eq a z (by omega)
            (by unfold TWO64 MAXADDR at *; omega)
        have hpos : (a + z) % TWO64 = a + z := sum_mod_TWO64 a z hMA
        dsimp only at h
        rw [haE] at h
        cases h
        have hsP1 := Nat.div_mul_le_self a f.buf_size
        have hse : a / f.buf_size ≤ (a + z) / f.buf_size :=
          Nat.div_le_div_right (by omega)
        have hspec := write_loop_blobs f.buf_size a z hP hz
          ((a + z) / f.buf_size + 1 - a / f.buf_size) (a / f.buf_size) 0
          { f with hermes_file_mapping := f.hermes_file_mapping ++
            [{ start_page_index := a / f.buf_size,
               num_pages := (a + z) / f.buf_size - a / f.buf_size + 1,
               size := z, addr := a }] } d rfl (by omega) (le_refl _)
          (fun _ => by omega)
        obtain ⟨w1, w2, w3⟩ := hspec
        have hfix := write_loop_fixed
          ((a + z) / f.buf_size + 1 - a / f.buf_size)
          { f with hermes_file_mapping := f.hermes_file_mapping ++
            [{ start_page_index := a / f.buf_size,
               num_pages := (a + z) / f.buf_size - a / f.buf_size + 1,
               size := z, addr := a }] } a z (a + z - 1) d 0
          (a / f.buf_size)
        refine ⟨?_, hfix.2.2.2.2.2.2.2.2.2.1, hfix.2.2.2.2.2.2.2.2.2.2.1⟩
        intro b v hσ
        unfold wrShadow at hσ
        by_cases hcb : a ≤ b ∧ b < a + z
        · rw [if_pos hcb] at hσ
          cases hσ
          obtain ⟨pg, hpg, hval⟩ := w2 b hcb.1 (by omega) hcb.2
          have hbsz : (H5FD__hermes_write_loop _ a z (a + z - 1) d 0
              (a / f.buf_size)
              ((a + z) / f.buf_size + 1 - a / f.buf_size)).buf_size =
              f.buf_size := hfix.2.2.2.2.2.2.2.2.2.1
          constructor
          · exact ⟨pg, by
              show _ = some pg
              rw [show (b / _ : Nat) = b / f.buf_size by rw [hbsz]]
              exact hpg, by
              rw [show (b % _ : Nat) = b % f.buf_size by rw [hbsz]]
              exact hval⟩
          · show b < max _ ((a + z) % TWO64)
            rw [hpos]
            omega
        · rw [if_neg hcb] at hσ
          obtain ⟨⟨pg, hpg, hval⟩, heof⟩ := hinv b v hσ
          have hmap : ((f.blobs (b / f.buf_size)).map
              (fun pg => pg (b % f.buf_size))) = some v := by
            rw [hpg, Option.map_some']
            exact congrArg some hval
          have := w3 b v (by omega) hmap
          obtain ⟨pg', hpg', hval'⟩ := Option.map_eq_some'.mp this
          have hbsz : (H5FD__hermes_write_loop _ a z (a + z - 1) d 0
              (a / f.buf_size)
              ((a + z) / f.buf_size + 1 - a / f.buf_size)).buf_size =
              f.buf_size := hfix.2.2.2.2.2.2.2.2.2.1
          constructor
          · exact ⟨pg', by
              show _ = some pg'
              rw [show (b / _ : Nat) = b / f.buf_size by rw [hbsz]]
              exact hpg', by
              rw [show (b % _ : Nat) = b % f.buf_size by rw [hbsz]]
              exact hval'⟩
          · show b < max _ ((a + z) % TWO64)
            have heq : (H5FD__hermes_write_loop _ a z (a + z - 1) d 0
                (a / f.buf_size)
                ((a + z) / f.buf_size + 1 - a / f.buf_size)).eof = f.eof :=
              hfix.2.1
            rw [hpos]
            omega

/-- A read over bytes the shadow state defines succeeds and returns the
shadow values (the last-written bytes). -/
theorem read_returns_shadow (f : H5FD_hermes_t) (a z : Nat)
    (buf : Nat → Nat) (σ : Nat → Option Nat) (vals : Nat → Nat)
    (hP : 0 < f.buf_size) (hz : 0 < z) (hpb : f.page_buf_null = false)
    (hv : REGION_OVERFLOW a z = false) (hinv : lastWriteInv f σ)
    (hcov : ∀ i, i < z → σ (a + i) = some (vals i)) :
    ∃ g out, H5FD__hermes_read f a z buf = .ok g out ∧
      ∀ i, i < z → out i = vals i := by
  have hdef := addr_ne_undef_of_region a z hv
  have hMA : a + z ≤ MAXADDR := (REGION_OVERFLOW_eq_false a z).mp hv
  have haeof : a < f.eof := by
    have h0 := hcov 0 hz
    rw [Nat.add_zero] at h0
    exact (hinv a (vals 0) h0).2
  have hsP1 := Nat.div_mul_le_self a f.buf_size
  have hse : a / f.buf_size ≤ (a + z) / f.buf_size :=
    Nat.div_le_div_right (by omega)
  have hpres : ∀ m, a / f.buf_size ≤ m → m ≤ (a + z) / f.buf_size →
      m * f.buf_size < a + z → (f.blobs m).isSome = true := by
    intro m h1 h2 h3
    have hab : a ≤ max a (m * f.buf_size) := le_max_left _ _
    have hbz : max a (m * f.buf_size) < a + z := max_lt (by omega) h3
    have hpage : max a (m * f.buf_size) / f.buf_size = m := by
      rcases Nat.le_total a (m * f.buf_size) with hc | hc
      · rw [max_eq_right hc]
        exact Nat.mul_div_cancel m hP
      · rw [max_eq_left hc]
        have h4 := lt_div_succ_mul a f.buf_size hP
        have h5 : a < (m + 1) * f.buf_size :=
          lt_of_lt_of_le h4 (Nat.mul_le_mul_right _ (by omega))
        exact Nat.div_eq_of_lt_le hc h5
    have hii := hcov (max a (m * f.buf_size) - a) (by omega)
    rw [show a + (max a (m * f.buf_size) - a) = max a (m * f.buf_size)
      by omega] at hii
    obtain ⟨⟨pg, hpg, _⟩, _⟩ := hinv _ _ hii
    rw [hpage] at hpg
    rw [hpg]
    rfl
  obtain ⟨g, out, hloop, hcc, hkeep⟩ := read_loop_bytes f.buf_size a z hP hz
    ((a + z) / f.buf_size + 1 - a / f.buf_size) (a / f.buf_size) 0 f buf
    rfl (by omega) (le_refl _) (fun _ => by omega) hpres
  unfold H5FD__hermes_read
  rw [if_neg (by simp [hdef]), if_neg (by simp [hv]), if_neg (by simp [hpb]),
    if_neg (by omega), if_neg (by omega)]
  dsimp only
  rw [addrEndOf_eq a z (by omega) (by unfold TWO64 MAXADDR at *; omega),
    hloop]
  refine ⟨_, out, rfl, ?_⟩
  intro i hi
  have hbq := hcov i hi
  obtain ⟨⟨pg, hpg, hval⟩, _⟩ := hinv (a + i) (vals i) hbq
  have hout := hcc (a + i) (by omega) (by omega) (by omega) pg hpg
  rw [show a + i - a = i by omega] at hout
  rw [hout]
  exact hval

/-- One write request issued by the host. -/
structure WriteOp where
  addr : Nat
  size : Nat
  data : Nat → Nat

/-- Run a sequence of writes, failing if any of them fails. -/
def runWrites : H5FD_hermes_t → List WriteOp → Option H5FD_hermes_t
  | f, [] => some f
  | f, w :: ws =>
    match H5FD__hermes_write f w.addr w.size w.data with
    | .ok g => runWrites g ws
    | .err _ => none

/-- Iterated shadow-state update for a sequence of writes. -/
def shadowOf : List WriteOp → (Nat → Option Nat) → (Nat → Option Nat)
  | [], σ => σ
  | w :: ws, σ => shadowOf ws (wrShadow σ w.addr w.size w.data)

/-- The value stored by the last write of the sequence covering byte `b`,
if any. -/
def lastWriteVal (ws : List WriteOp) : Nat → Option Nat :=
  shadowOf ws (fun _ => none)

/-- Running a sequence of positive-size writes preserves the invariant
against the iterated shadow state. -/
theorem runWrites_inv :
    ∀ (ws : List WriteOp) (f g : H5FD_hermes_t) (σ : Nat → Option Nat),
      0 < f.buf_size → (∀ w ∈ ws, 0 < w.size) → lastWriteInv f σ →
      runWrites f ws = some g →
      lastWriteInv g (shadowOf ws σ) ∧ g.buf_size = f.buf_size ∧
      g.page_buf_null = f.page_buf_null := by
  intro ws
  induction ws with
  | nil =>
    intro f g σ hP hs hinv h
    cases h
    exact ⟨hinv, rfl, rfl⟩
  | cons w ws ih =>
    intro f g σ hP hs hinv h
    unfold runWrites at h
    split at h
    · rename_i g1 heq
      have hw := write_preserves_inv f g1 w.addr w.size w.data σ hP
        (hs w (by simp)) hinv heq
      obtain ⟨hinv1, hbsz1, hpbn1⟩ := hw
      have := ih g1 g (wrShadow σ w.addr w.size w.data) (by omega)
        (fun x hx => hs x (by simp [hx])) hinv1 h
      exact ⟨this.1, this.2.1.trans hbsz1, this.2.2.trans hpbn1⟩
    · cases h

/-- C1 amended.  For every sequence of successful writes of positive size
followed by a successful read whose bytes were all covered by some write,
the read returns at each byte the value stored by the last write covering
that byte. -/
theorem hermes_last_writer_wins_pos_size (f0 f1 : H5FD_hermes_t)
    (ws : List WriteOp) (a z : Nat) (buf : Nat → Nat) (vals : Nat → Nat)
    (hP : 0 < f0.buf_size) (hpb : f0.page_buf_null = false)
    (hws : ∀ w ∈ ws, 0 < w.size) (hrun : runWrites f0 ws = some f1)
    (hz : 0 < z) (hv : REGION_OVERFLOW a z = false)
    (hcov : ∀ i, i < z → lastWriteVal ws (a + i) = some (vals i)) :
    ∃ g out, H5FD__hermes_read f1 a z buf = .ok g out ∧
      ∀ i, i < z → out i = vals i := by
  have base : lastWriteInv f0 (fun _ => none) := fun b v h => by cases h
  obtain ⟨hinv, hbsz, hpbn⟩ := runWrites_inv ws f0 f1 _ hP hws base hrun
  exact read_returns_shadow f1 a z buf _ vals (by omega) hz
    (hpbn.trans hpb) hv hinv hcov

/-- State after running the single write `[1,1,1,1]` at address 0 through
`runWrites` on a fresh non-persistent file. -/
def c1amw : H5FD_hermes_t :=
  match runWrites (testState false bufZ 0 0) [⟨0, 4, fun _ => 1⟩] with
  | some g => g
  | none => testState false bufZ 0 0

/-- Witness for the amended C1: one write of `[1,1,1,1]` at address 0,
then a read of the same range returns the written bytes. -/
theorem hermes_last_writer_wins_pos_size_witness :
    ∃ g out, H5FD__hermes_read c1amw 0 4 bufZ = .ok g out ∧
      ∀ i, i < 4 → out i = (fun _ => (1:Nat)) i :=
  hermes_last_writer_wins_pos_size (testState false bufZ 0 0) c1amw
    [⟨0, 4, fun _ => 1⟩] 0 4 bufZ (fun _ => 1) (by decide) rfl
    (by
      intro w hw
      simp only [List.mem_singleton] at hw
      subst hw
      decide)
    rfl (by decide) (by decide)
    (by
      intro i hi
      interval_cases i <;> rfl)

/-! ## Claim C9: aligned-end writes make close fail -/

/-- The close page loop fails when the last page of its range has no blob
and every earlier page of the range has one (those iterations only touch
the stream, the page buffer and the event log, never the bucket
contents). -/
theorem close_pages_err :
    ∀ (fuel j : Nat) (f : H5FD_hermes_t)
      (start num addr size addr_end : Nat),
      0 < fuel → f.blobs (j + fuel - 1) = none →
      (∀ m, j ≤ m → m < j + fuel - 1 → (f.blobs m).isSome = true) →
      ∃ f', H5FD__hermes_close_pages f start num addr size addr_end j fuel =
        .err f' := by
  intro fuel
  induction fuel with
  | zero =>
    intro j f start num addr size addr_end h0 _ _
    exact absurd h0 (Nat.lt_irrefl 0)
  | succ fuel' ih =>
    intro j f start num addr size addr_end _ hlast hpres
    unfold H5FD__hermes_close_pages
    dsimp only
    by_cases hf : fuel' = 0
    · subst hf
      have hbj : f.blobs j = none := by
        have he : j + 1 - 1 = j := by omega
        rw [he] at hlast
        exact hlast
      rw [hbj]
      exact ⟨_, rfl⟩
    · have hsome : (f.blobs j).isSome = true :=
        hpres j (le_refl j) (by omega)
      cases hb : f.blobs j with
      | none => rw [hb] at hsome; cases hsome
      | some pg =>
        refine ih (j + 1) _ start num addr size addr_end (by omega) ?_ ?_
        · show f.blobs (j + 1 + fuel' - 1) = none
          have he : j + 1 + fuel' - 1 = j + (fuel' + 1) - 1 := by omega
          rw [he]
          exact hlast
        · intro m hm1 hm2
          show (f.blobs m).isSome = true
          have hm2' : m < j + 1 + fuel' - 1 := hm2
          exact hpres m (by omega) (by omega)

/-- A close in persistent mode with a live stream fails outright when the
single recorded mapping's page range ends in a page with no blob. -/
theorem close_single_mapping_err (g : H5FD_hermes_t) (m : blob_file_mapping)
    (hpers : g.persistence = true) (hfp : g.fp = true)
    (hmap : g.hermes_file_mapping = [m])
    (hnum : 0 < m.num_pages)
    (hlast : g.blobs (m.start_page_index + m.num_pages - 1) = none)
    (hpres : ∀ j, m.start_page_index ≤ j →
      j < m.start_page_index + m.num_pages - 1 →
      (g.blobs j).isSome = true) :
    CloseResult.isErr (H5FD__hermes_close g) = true := by
  obtain ⟨f', herr⟩ := close_pages_err m.num_pages m.start_page_index g
    m.start_page_index m.num_pages m.addr m.size (addrEndOf m.addr m.size)
    hnum hlast hpres
  unfold H5FD__hermes_close
  rw [if_pos hpers, if_neg (not_not_intro hfp), hmap]
  unfold H5FD__hermes_close_maps
  dsimp only
  rw [herr]
  rfl

/-- C9.  For a write whose end address `addr + size` is an exact multiple of
the page size (with `size > 0`, on a fresh persistent file), the recorded
mapping's page count `end_page_index - start_page_index + 1` with
`end_page_index = (addr+size)/P` includes the trailing page index
`(addr+size)/P`, for which the write loop puts no blob; consequently a
subsequent close in persistent mode returns FAIL at that page's
`HermesBucketContainsBlob` check instead of writing the data back. -/
theorem hermes_aligned_end_write_close_fails (f : H5FD_hermes_t)
    (a z : Nat) (buf : Nat → Nat)
    (hP : 0 < f.buf_size) (hz : 0 < z)
    (hpers : f.persistence = true) (hfp : f.fp = true)
    (hpb : f.page_buf_null = false)
    (hblobs : f.blobs = fun _ => none)
    (hmaps : f.hermes_file_mapping = [])
    (hv : REGION_OVERFLOW a z = false)
    (hal : (a + z) % f.buf_size = 0) :
    ∃ g, H5FD__hermes_write f a z buf = .ok g ∧
      g.hermes_file_mapping =
        [{ start_page_index := a / f.buf_size,
           num_pages := (a + z) / f.buf_size - a / f.buf_size + 1,
           size := z, addr := a }] ∧
      CloseResult.isErr (H5FD__hermes_close g) = true := by
  have hd := addr_ne_undef_of_region a z hv
  have hMA : a + z ≤ MAXADDR := (REGION_OVERFLOW_eq_false a z).mp hv
  have haE : addrEndOf a z = a + z - 1 :=
    addrEndOf_eq a z (by omega) (by unfold TWO64 MAXADDR at *; omega)
  have hsP1 := Nat.div_mul_le_self a f.buf_size
  have hse : a / f.buf_size ≤ (a + z) / f.buf_size :=
    Nat.div_le_div_right (by omega)
  have heP : (a + z) / f.buf_size * f.buf_size = a + z :=
    Nat.div_mul_cancel (Nat.dvd_of_mod_eq_zero hal)
  unfold H5FD__hermes_write
  rw [if_neg (by simp [hd]), if_neg (by simp [hv]), if_neg (by simp [hpb])]
  dsimp only
  rw [haE]
  set F0 : H5FD_hermes_t :=
    { f with hermes_file_mapping := f.hermes_file_mapping ++
      [{ start_page_index := a / f.buf_size,
         num_pages := (a + z) / f.buf_size - a / f.buf_size + 1,
         size := z, addr := a }] } with hF0
  set L := H5FD__hermes_write_loop F0 a z (a + z - 1) buf 0 (a / f.buf_size)
    ((a + z) / f.buf_size + 1 - a / f.buf_size) with hL
  have hfix := write_loop_fixed ((a + z) / f.buf_size + 1 - a / f.buf_size)
    F0 a z (a + z - 1) buf 0 (a / f.buf_size)
  have hspec := write_loop_blobs f.buf_size a z hP hz
    ((a + z) / f.buf_size + 1 - a / f.buf_size) (a / f.buf_size) 0
    F0 buf rfl (by omega) (le_refl _) (fun _ => by omega)
  obtain ⟨w1, w2, w3⟩ := hspec
  rw [← hL] at hfix w1 w2
  have hPers : L.persistence = true := by
    rw [hfix.2.2.2.2.1]
    exact hpers
  have hFp : L.fp = true := by
    rw [hfix.2.2.2.2.2.1]
    exact hfp
  have hMapL : L.hermes_file_mapping =
      [{ start_page_index := a / f.buf_size,
         num_pages := (a + z) / f.buf_size - a / f.buf_size + 1,
         size := z, addr := a }] := by
    rw [hfix.2.2.2.2.2.2.2.2.2.2.2.1]
    show f.hermes_file_mapping ++ _ = _
    simp only [hmaps, List.nil_append]
  have hbe : L.blobs ((a + z) / f.buf_size) = none := by
    rw [w1 ((a + z) / f.buf_size) (by intro hcc; omega)]
    show f.blobs ((a + z) / f.buf_size) = none
    rw [hblobs]
  have hpresj : ∀ j, a / f.buf_size ≤ j → j < (a + z) / f.buf_size →
      (L.blobs j).isSome = true := by
    intro j hj1 hj2
    have hjP : j * f.buf_size < a + z := by
      have h1 : (j + 1) * f.buf_size ≤ (a + z) / f.buf_size * f.buf_size :=
        Nat.mul_le_mul_right f.buf_size (Nat.succ_le_of_lt hj2)
      have h2 : (j + 1) * f.buf_size = j * f.buf_size + f.buf_size :=
        Nat.succ_mul j f.buf_size
      omega
    by_cases hcase : a ≤ j * f.buf_size
    · obtain ⟨pg, hpg, _⟩ := w2 (j * f.buf_size) hcase
        (Nat.mul_le_mul_right f.buf_size hj1) hjP
      rw [show j * f.buf_size / f.buf_size = j from
        Nat.mul_div_cancel j hP] at hpg
      rw [hpg]
      rfl
    · have hjs : j = a / f.buf_size := by
        have hlt := lt_div_succ_mul a f.buf_size hP
        by_contra hne
        have hj3 : a / f.buf_size + 1 ≤ j := by omega
        have h4 : (a / f.buf_size + 1) * f.buf_size ≤ j * f.buf_size :=
          Nat.mul_le_mul_right f.buf_size hj3
        omega
      subst hjs
      obtain ⟨pg, hpg, _⟩ := w2 a (le_refl a) hsP1 (by omega)
      rw [hpg]
      rfl
  have he : a / f.buf_size +
      ((a + z) / f.buf_size - a / f.buf_size + 1) - 1 =
      (a + z) / f.buf_size := by
    rw [← Nat.add_assoc, Nat.add_sub_cancel, Nat.add_sub_cancel' hse]
  refine ⟨_, rfl, ?_, ?_⟩
  · exact hMapL
  · refine close_single_mapping_err _
      { start_page_index := a / f.buf_size,
        num_pages := (a + z) / f.buf_size - a / f.buf_size + 1,
        size := z, addr := a }
      hPers hFp hMapL ?_ ?_ ?_
    · show 0 < (a + z) / f.buf_size - a / f.buf_size + 1
      omega
    · show L.blobs (a / f.buf_size +
        ((a + z) / f.buf_size - a / f.buf_size + 1) - 1) = none
      rw [he]
      exact hbe
    · intro j h1 h2
      have h2' : j < a / f.buf_size +
          ((a + z) / f.buf_size - a / f.buf_size + 1) - 1 := h2
      rw [he] at h2'
      exact hpresj j h1 h2'

/-- Witness for C9: write 4 bytes at address 0 (page size 4, aligned end)
on a fresh persistent file; the write succeeds and records a two-page
mapping, and the subsequent close fails. -/
theorem hermes_aligned_end_write_close_fails_witness :
    ∃ g, H5FD__hermes_write (testState true bufZ 0 0) 0 4 (fun _ => 7) =
        .ok g ∧
      g.hermes_file_mapping =
        [{ start_page_index := 0 / (testState true bufZ 0 0).buf_size,
           num_pages := (0 + 4) / (testState true bufZ 0 0).buf_size -
             0 / (testState true bufZ 0 0).buf_size + 1,
           size := 4, addr := 0 }] ∧
      CloseResult.isErr (H5FD__hermes_close g) = true :=
  hermes_aligned_end_write_close_fails (testState true bufZ 0 0) 0 4
    (fun _ => 7) (by decide) (by decide) rfl rfl rfl rfl rfl
    (by decide) (by decide)

/-! ## Claim C2: what close persists — the recorded write ranges -/

/-- Byte `b` of the backing file agrees with the current blob contents:
it lies inside the file and, if the page holding it has a blob, it holds
that blob's byte. -/
def blobByteOK (f g : H5FD_hermes_t) (b : Nat) : Prop :=
  b < g.back_size ∧
  ∀ pg, f.blobs (b / f.buf_size) = some pg →
    g.backing b = pg (b % f.buf_size)

/-- One evolution of the backing file during close: the size never
shrinks and every pre-existing byte is either untouched or overwritten
with its page's current blob byte. -/
def evolOK (f g g' : H5FD_hermes_t) : Prop :=
  g.back_size ≤ g'.back_size ∧
  ∀ b, b < g.back_size →
    g'.backing b = g.backing b ∨
    ∀ pg, f.blobs (b / f.buf_size) = some pg →
      g'.backing b = pg (b % f.buf_size)

theorem evolOK_refl (f g : H5FD_hermes_t) : evolOK f g g :=
  ⟨le_refl _, fun _ _ => Or.inl rfl⟩

theorem evolOK_trans {f g g' g'' : H5FD_hermes_t}
    (h1 : evolOK f g g') (h2 : evolOK f g' g'') : evolOK f g g'' := by
  refine ⟨le_trans h1.1 h2.1, ?_⟩
  intro b hb
  rcases h2.2 b (lt_of_lt_of_le hb h1.1) with h | h
  · rcases h1.2 b hb with h' | h'
    · exact Or.inl (h.trans h')
    · exact Or.inr (fun pg hpg => h.trans (h' pg hpg))
  · exact Or.inr h

theorem blobByteOK_mono {f g g' : H5FD_hermes_t} {b : Nat}
    (h : blobByteOK f g b) (he : evolOK f g g') : blobByteOK f g' b := by
  refine ⟨lt_of_lt_of_le h.1 he.1, ?_⟩
  intro pg hpg
  rcases he.2 b h.1 with h' | h'
  · rw [h']
    exact h.2 pg hpg
  · exact h' pg hpg

/-- Effect of one blob-correct `fwrite`: the backing size is monotone,
pre-existing bytes are untouched or rewritten with their blob byte, and
every written byte ends up inside the file holding its blob byte. -/
theorem fwriteUpd_blob_spec (f : H5FD_hermes_t) (backing : Nat → Nat)
    (bsize pos : Nat) (src : Nat → Nat) (soff n : Nat)
    (hcorr : ∀ q, pos ≤ q → q < pos + n →
      ∀ pgq, f.blobs (q / f.buf_size) = some pgq →
        src (soff + (q - pos)) = pgq (q % f.buf_size)) :
    bsize ≤ (fwriteUpd backing bsize pos src soff n).2.1 ∧
    (∀ b, b < bsize →
      (fwriteUpd backing bsize pos src soff n).1 b = backing b ∨
      ∀ pgq, f.blobs (b / f.buf_size) = some pgq →
        (fwriteUpd backing bsize pos src soff n).1 b =
          pgq (b % f.buf_size)) ∧
    (∀ q, pos ≤ q → q < pos + n →
      q < (fwriteUpd backing bsize pos src soff n).2.1 ∧
      ∀ pgq, f.blobs (q / f.buf_size) = some pgq →
        (fwriteUpd backing bsize pos src soff n).1 q =
          pgq (q % f.buf_size)) := by
  unfold fwriteUpd
  dsimp only
  refine ⟨le_max_left _ _, ?_, ?_⟩
  · intro b hb
    by_cases hin : pos ≤ b ∧ b < pos + n
    · refine Or.inr (fun pgq hpgq => ?_)
      rw [memcpy_in _ _ _ _ _ _ hin.1 hin.2]
      exact hcorr b hin.1 hin.2 pgq hpgq
    · refine Or.inl ?_
      rw [memcpy_out _ _ _ _ _ _ (by omega)]
      rw [if_neg (by omega)]
  · intro q h1 h2
    refine ⟨lt_of_lt_of_le h2 (le_max_right _ _), fun pgq hpgq => ?_⟩
    rw [memcpy_in _ _ _ _ _ _ h1 h2]
    exact hcorr q h1 h2 pgq hpgq

/-- A full-page copy of a blob into the page buffer reproduces the blob. -/
theorem page_buf_of_blob (pbuf pg : Nat → Nat) (P : Nat) :
    ∀ o, o < P → memcpy pbuf 0 pg 0 P o = pg o := by
  intro o ho
  rw [memcpy_in pbuf 0 pg 0 P o (Nat.zero_le o) (by omega)]
  exact congrArg pg (by omega)

/-- The source-correctness obligation of one close-loop `fwrite`: the
written range lies inside page `j`, whose blob is `pg`, and the source
offset aligns the page buffer with the page, so every written byte equals
its page's blob byte. -/
theorem close_fwrite_corr (f : H5FD_hermes_t) (hP : 0 < f.buf_size)
    (pb pg : Nat → Nat) (j pos soff n : Nat)
    (hpb : ∀ o, o < f.buf_size → pb o = pg o)
    (hfb : f.blobs j = some pg)
    (hlo : j * f.buf_size ≤ pos)
    (hhi : pos + n ≤ (j + 1) * f.buf_size)
    (hsoff : soff = pos - j * f.buf_size) :
    ∀ q, pos ≤ q → q < pos + n →
      ∀ pgq, f.blobs (q / f.buf_size) = some pgq →
        pb (soff + (q - pos)) = pgq (q % f.buf_size) := by
  intro q h1 h2 pgq hpgq
  have hsucc : (j + 1) * f.buf_size = j * f.buf_size + f.buf_size :=
    Nat.succ_mul j f.buf_size
  have hdm := div_eq_and_mod f.buf_size j q hP (by omega) (by omega)
  rw [hdm.1] at hpgq
  rw [hfb] at hpgq
  cases hpgq
  rw [hdm.2]
  have harg : soff + (q - pos) = q - j * f.buf_size := by omega
  rw [harg]
  exact hpb _ (by omega)

set_option maxHeartbeats 1600000 in
/-- Full characterization of a successful close page loop over one
well-formed recorded mapping (lines 454-488): the backing file evolves by
blob-correct writes only, every non-stream field is preserved, and every
byte of the mapping's range from page `j` on ends up in the backing file
holding its page's blob byte. -/
theorem close_pages_spec (f : H5FD_hermes_t) (hP : 0 < f.buf_size)
    (addr size start num : Nat) (hz : 0 < size)
    (hstart : start = addr / f.buf_size)
    (hnum : start + num = (addr + size) / f.buf_size + 1) :
    ∀ (fuel j : Nat) (g g' : H5FD_hermes_t),
      g.buf_size = f.buf_size → g.blobs = f.blobs →
      j + fuel = start + num → start ≤ j →
      (start < j → j < start + num → g.file_pos = j * f.buf_size) →
      H5FD__hermes_close_pages g start num addr size (addr + size - 1)
        j fuel = .ok g' →
      evolOK f g g' ∧
      g'.buf_size = g.buf_size ∧ g'.blobs = g.blobs ∧
      g'.persistence = g.persistence ∧ g'.fp = g.fp ∧
      g'.eof = g.eof ∧ g'.pos = g.pos ∧ g'.op = g.op ∧
      g'.ref_count = g.ref_count ∧
      g'.hermes_file_mapping = g.hermes_file_mapping ∧
      (∀ b, addr ≤ b → j * f.buf_size ≤ b → b < addr + size →
        blobByteOK f g' b) := by
  intro fuel
  induction fuel with
  | zero =>
    intro j g g' hbsz hbl hsum hjs hfpos h
    have hginj : CloseStep.ok g = CloseStep.ok g' := h
    cases hginj
    refine ⟨evolOK_refl f g, rfl, rfl, rfl, rfl, rfl, rfl, rfl, rfl, rfl,
      ?_⟩
    intro b hab hjb hbz
    exfalso
    have hj : j = (addr + size) / f.buf_size + 1 := by omega
    have hlt := lt_div_succ_mul (addr + size) f.buf_size hP
    have hjb' : j * f.buf_size ≤ b := hjb
    rw [hj] at hjb'
    omega
  | succ fuel' ih =>
    intro j g g' hbsz hbl hsum hjs hfpos h
    unfold H5FD__hermes_close_pages at h
    dsimp only at h
    rw [hbsz] at h
    have hjlt : j < start + num := by omega
    have hsucc : (j + 1) * f.buf_size = j * f.buf_size + f.buf_size :=
      Nat.succ_mul j f.buf_size
    split at h
    · cases h
    · rename_i pg hbg
      have hfb : f.blobs j = some pg := by rw [← hbl]; exact hbg
      have hpb := page_buf_of_blob g.page_buf pg f.buf_size
      by_cases hjeq : j = start
      · rw [if_pos hjeq] at h
        have haJ : j * f.buf_size ≤ addr := by
          rw [hjeq, hstart]
          exact Nat.div_mul_le_self addr f.buf_size
        have haJ2 : addr < (j + 1) * f.buf_size := by
          rw [hjeq, hstart]
          exact lt_div_succ_mul addr f.buf_size hP
        by_cases hcond : addr + size - 1 ≤ (j + 1) * f.buf_size - 1
        · rw [if_pos hcond] at h
          have hcorr := close_fwrite_corr f hP
            (memcpy g.page_buf 0 pg 0 f.buf_size) pg j addr
            (addr - f.buf_size * j) size hpb hfb haJ (by omega)
            (by rw [Nat.mul_comm])
          obtain ⟨hsz, hold, hwr⟩ := fwriteUpd_blob_spec f g.backing
            g.back_size addr (memcpy g.page_buf 0 pg 0 f.buf_size)
            (addr - f.buf_size * j) size hcorr
          obtain ⟨hev', hbsz', hbl', hpers', hfp', heof', hpos', hop',
              hrc', hmap', hcov'⟩ :=
            ih (j + 1) _ g' (by exact rfl) (by exact hbl) (by omega)
              (by omega)
              (by
                intro _ h2
                show addr + size = (j + 1) * f.buf_size
                have hle : j + 1 ≤ (addr + size) / f.buf_size := by omega
                have hml := Nat.mul_le_mul_right f.buf_size hle
                have hdms := Nat.div_mul_le_self (addr + size) f.buf_size
                omega)
              h
          refine ⟨evolOK_trans ⟨hsz, hold⟩ hev', hbsz'.trans hbsz.symm, hbl', hpers',
            hfp', heof', hpos', hop', hrc', hmap', ?_⟩
          intro b hab hjb hbz
          have hbb := hwr b hab (by omega)
          exact blobByteOK_mono ⟨hbb.1, hbb.2⟩ hev'
        · rw [if_neg hcond] at h
          have hcorr := close_fwrite_corr f hP
            (memcpy g.page_buf 0 pg 0 f.buf_size) pg j addr
            (addr - f.buf_size * j) ((j + 1) * f.buf_size - addr) hpb hfb
            haJ (by omega) (by rw [Nat.mul_comm])
          obtain ⟨hsz, hold, hwr⟩ := fwriteUpd_blob_spec f g.backing
            g.back_size addr (memcpy g.page_buf 0 pg 0 f.buf_size)
            (addr - f.buf_size * j) ((j + 1) * f.buf_size - addr) hcorr
          obtain ⟨hev', hbsz', hbl', hpers', hfp', heof', hpos', hop',
              hrc', hmap', hcov'⟩ :=
            ih (j + 1) _ g' (by exact rfl) (by exact hbl) (by omega)
              (by omega)
              (by
                intro _ _
                show addr + ((j + 1) * f.buf_size - addr) =
                  (j + 1) * f.buf_size
                omega)
              h
          refine ⟨evolOK_trans ⟨hsz, hold⟩ hev', hbsz'.trans hbsz.symm, hbl', hpers',
            hfp', heof', hpos', hop', hrc', hmap', ?_⟩
          intro b hab hjb hbz
          by_cases hbelow : b < (j + 1) * f.buf_size
          · have hbb := hwr b hab (by omega)
            exact blobByteOK_mono ⟨hbb.1, hbb.2⟩ hev'
          · exact hcov' b hab (by omega) hbz
      · rw [if_neg hjeq] at h
        have hjgt : start < j := by omega
        have hfpj : g.file_pos = j * f.buf_size := hfpos hjgt hjlt
        rw [hfpj] at h
        by_cases hjl : j = start + num - 1
        · rw [if_pos hjl] at h
          have hje : j = (addr + size) / f.buf_size := by omega
          have hjeP : j * f.buf_size =
              (addr + size) / f.buf_size * f.buf_size := by rw [hje]
          have hmodlt : (addr + size - 1) % f.buf_size < f.buf_size :=
            Nat.mod_lt _ hP
          have hcorr := close_fwrite_corr f hP
            (memcpy g.page_buf 0 pg 0 f.buf_size) pg j (j * f.buf_size) 0
            ((addr + size - 1) % f.buf_size + 1) hpb hfb (le_refl _)
            (by omega) (by omega)
          obtain ⟨hsz, hold, hwr⟩ := fwriteUpd_blob_spec f g.backing
            g.back_size (j * f.buf_size)
            (memcpy g.page_buf 0 pg 0 f.buf_size) 0
            ((addr + size - 1) % f.buf_size + 1) hcorr
          obtain ⟨hev', hbsz', hbl', hpers', hfp', heof', hpos', hop',
              hrc', hmap', hcov'⟩ :=
            ih (j + 1) _ g' (by exact rfl) (by exact hbl) (by omega)
              (by omega)
              (fun _ h2 => absurd h2 (by omega))
              h
          refine ⟨evolOK_trans ⟨hsz, hold⟩ hev', hbsz'.trans hbsz.symm, hbl', hpers',
            hfp', heof', hpos', hop', hrc', hmap', ?_⟩
          intro b hab hjb hbz
          by_cases halig : (addr + size) % f.buf_size = 0
          · exfalso
            have heP : (addr + size) / f.buf_size * f.buf_size =
                addr + size :=
              Nat.div_mul_cancel (Nat.dvd_of_mod_eq_zero halig)
            omega
          · have hda := Nat.div_add_mod (addr + size) f.buf_size
            have hcm : f.buf_size * ((addr + size) / f.buf_size) =
                (addr + size) / f.buf_size * f.buf_size := Nat.mul_comm _ _
            have he2 : (addr + size) / f.buf_size * f.buf_size ≤
                addr + size - 1 := by omega
            have he3 : addr + size - 1 <
                ((addr + size) / f.buf_size + 1) * f.buf_size := by
              have := lt_div_succ_mul (addr + size) f.buf_size hP
              omega
            have hdm2 := div_eq_and_mod f.buf_size
              ((addr + size) / f.buf_size) (addr + size - 1) hP he2 he3
            have hbb := hwr b hjb (by omega)
            exact blobByteOK_mono ⟨hbb.1, hbb.2⟩ hev'
        · rw [if_neg hjl] at h
          have hcorr := close_fwrite_corr f hP
            (memcpy g.page_buf 0 pg 0 f.buf_size) pg j (j * f.buf_size) 0
            f.buf_size hpb hfb (le_refl _) (by omega) (by omega)
          obtain ⟨hsz, hold, hwr⟩ := fwriteUpd_blob_spec f g.backing
            g.back_size (j * f.buf_size)
            (memcpy g.page_buf 0 pg 0 f.buf_size) 0 f.buf_size hcorr
          obtain ⟨hev', hbsz', hbl', hpers', hfp', heof', hpos', hop',
              hrc', hmap', hcov'⟩ :=
            ih (j + 1) _ g' (by exact rfl) (by exact hbl) (by omega)
              (by omega)
              (by
                intro _ _
                show j * f.buf_size + f.buf_size = (j + 1) * f.buf_size
                omega)
              h
          refine ⟨evolOK_trans ⟨hsz, hold⟩ hev', hbsz'.trans hbsz.symm, hbl', hpers',
            hfp', heof', hpos', hop', hrc', hmap', ?_⟩
          intro b hab hjb hbz
          by_cases hbelow : b < (j + 1) * f.buf_size
          · have hbb := hwr b hjb (by omega)
            exact blobByteOK_mono ⟨hbb.1, hbb.2⟩ hev'
          · exact hcov' b hab (by omega) hbz

/-- Characterization of a successful close write-back over a list of
well-formed mappings: the backing file evolves by blob-correct writes
only and every byte of every mapping's range ends up in the backing file
holding its page's blob byte. -/
theorem close_maps_spec (f : H5FD_hermes_t) (hP : 0 < f.buf_size) :
    ∀ (ms : List blob_file_mapping) (g g' : H5FD_hermes_t),
      g.buf_size = f.buf_size → g.blobs = f.blobs →
      (∀ m ∈ ms, 0 < m.size ∧
        m.start_page_index = m.addr / f.buf_size ∧
        m.start_page_index + m.num_pages =
          (m.addr + m.size) / f.buf_size + 1 ∧
        m.addr + m.size ≤ MAXADDR) →
      H5FD__hermes_close_maps g ms = .ok g' →
      evolOK f g g' ∧ g'.buf_size = g.buf_size ∧ g'.blobs = g.blobs ∧
      g'.fp = g.fp ∧ g'.ref_count = g.ref_count ∧
      (∀ m ∈ ms, ∀ b, m.addr ≤ b → b < m.addr + m.size →
        blobByteOK f g' b) := by
  intro ms
  induction ms with
  | nil =>
    intro g g' hbsz hbl hwf h
    have hginj : CloseStep.ok g = CloseStep.ok g' := h
    cases hginj
    exact ⟨evolOK_refl f g, rfl, rfl, rfl, rfl,
      fun m hm => absurd hm (by simp)⟩
  | cons m rest ihm =>
    intro g g' hbsz hbl hwf h
    unfold H5FD__hermes_close_maps at h
    dsimp only at h
    obtain ⟨hmz, hmst, hmnum, hmMA⟩ := hwf m (by simp)
    have haE : addrEndOf m.addr m.size = m.addr + m.size - 1 :=
      addrEndOf_eq m.addr m.size (by omega)
        (by unfold TWO64 MAXADDR at *; omega)
    rw [haE] at h
    split at h
    · cases h
    · cases h
    · rename_i g1 hpages
      obtain ⟨hev1, hbsz1, hbl1, hpers1, hfp1, heof1, hpos1, hop1, hrc1,
          hmap1, hcov1⟩ :=
        close_pages_spec f hP m.addr m.size m.start_page_index m.num_pages
          hmz hmst hmnum m.num_pages m.start_page_index g g1 hbsz hbl rfl
          (le_refl _) (fun h1 _ => absurd h1 (Nat.lt_irrefl _)) hpages
      obtain ⟨hev2, hbsz2, hbl2, hfp2, hrc2, hcov2⟩ :=
        ihm _ g' (by exact hbsz1.trans hbsz) (by exact hbl1.trans hbl)
          (by
            intro x hx
            exact hwf x (List.mem_cons_of_mem m hx))
          h
      refine ⟨evolOK_trans hev1 hev2, hbsz2.trans hbsz1, hbl2.trans hbl1,
        hfp2.trans hfp1, hrc2.trans hrc1, ?_⟩
      intro x hx b hb1 hb2
      rcases List.mem_cons.mp hx with hxm | hxr
      · subst hxm
        have hsp : x.start_page_index * f.buf_size ≤ b := by
          have h1 : x.start_page_index * f.buf_size ≤ x.addr := by
            rw [hmst]
            exact Nat.div_mul_le_self _ _
          omega
        exact blobByteOK_mono (hcov1 b hb1 hsp hb2) hev2
      · exact hcov2 x hxr b hb1 hb2

/-- Well-formedness of the recorded write mappings: exactly the shape
`H5FD__hermes_write` records for a positive-size write that passed its
overflow check. -/
def mappingsWF (f : H5FD_hermes_t) : Prop :=
  ∀ m ∈ f.hermes_file_mapping, 0 < m.size ∧
    m.start_page_index = m.addr / f.buf_size ∧
    m.start_page_index + m.num_pages =
      (m.addr + m.size) / f.buf_size + 1 ∧
    m.addr + m.size ≤ MAXADDR

/-- C2 amended.  In persistent mode, after a successful close, every byte
`b` covered by some recorded write range `[addr, addr+size)` lies inside
the backing file and holds its page's final blob byte (last writer wins);
nothing is claimed for bytes of `[0, eof)` outside every recorded range,
which keep the backing file's prior contents and may disagree with the
blob contents pre-close reads returned. -/
theorem hermes_close_persists_written_ranges (f g : H5FD_hermes_t)
    (hP : 0 < f.buf_size) (hpers : f.persistence = true)
    (hwf : mappingsWF f) (h : H5FD__hermes_close f = .ok g) :
    ∀ m ∈ f.hermes_file_mapping, ∀ b, m.addr ≤ b → b < m.addr + m.size →
      b < g.back_size ∧
      ∀ pg, f.blobs (b / f.buf_size) = some pg →
        g.backing b = pg (b % f.buf_size) := by
  unfold H5FD__hermes_close at h
  rw [if_pos hpers] at h
  split at h
  · cases h
  · split at h
    · cases h
    · cases h
    · rename_i f1 hmaps
      obtain ⟨hev, hbsz1, hbl1, hfp1, hrc1, hcov⟩ :=
        close_maps_spec f hP f.hermes_file_mapping f f1 rfl rfl hwf hmaps
      intro m hm b hb1 hb2
      have hbk := hcov m hm b hb1 hb2
      split at h
      · cases h
        exact ⟨hbk.1, hbk.2⟩
      · cases h
        exact ⟨hbk.1, hbk.2⟩

/-- State after successfully closing `c2w` (persistent file with one
recorded 2-byte write at address 0). -/
def c2closed : H5FD_hermes_t :=
  match H5FD__hermes_close c2w with
  | .ok g => g
  | _ => c2w

/-- Witness for the amended C2: after closing `c2w`, byte 1 of the backing
file holds blob 0's byte 1 (the written value 5). -/
theorem hermes_close_persists_written_ranges_witness :
    1 < c2closed.back_size ∧
    ∀ pg, c2w.blobs (1 / c2w.buf_size) = some pg →
      c2closed.backing 1 = pg (1 % c2w.buf_size) :=
  hermes_close_persists_written_ranges c2w c2closed (by decide) rfl
    (by unfold mappingsWF; decide) rfl
    ⟨0, 1, 2, 0⟩ (by decide) 1 (by decide) (by decide)
